import Mathlib

/-!
# Paracooba: the CaDiCaL handle of the solver module

A shallow embedding of `modules/solver/cadical_handle.cpp`.

* The cube store (`std::vector<Literal>`) and the jumplist
  (`std::vector<size_t>`) are held through `std::shared_ptr`, so they live in
  a `Heap` and a handle only stores their addresses.  A handle built by the
  copy constructor stores the same addresses as the handle it was copied from.
* `CaDiCaL::Solver` is an external engine.  Whatever it computes (return
  codes, generated cubes, its state, the model) enters the embedding as an
  explicit argument of the operation that asks for it.
* `size_t` values are `Nat`, literals (`int`) are `Int`.
-/

namespace parac.solver

/-! ## Basic types -/

/-- `using Literal = int`. CaDiCaL literals are non-zero and never `INT_MIN`,
so negation and `std::abs` do not overflow on them. -/
abbrev Literal := Int

/-- `using Cube = std::vector<Literal>`. -/
abbrev Cube := List Literal

/-- The values of `parac_status` used by the handle. -/
inductive parac_status where
  | PARAC_OK
  | PARAC_SAT
  | PARAC_UNSAT
  | PARAC_UNKNOWN
  | PARAC_ABORTED
  | PARAC_SPLITTED
  | PARAC_NO_SPLITS_LEFT
  | PARAC_PARSE_ERROR
  deriving DecidableEq, Repr

/-- `CaDiCaL::State` as far as the handle inspects it. -/
inductive State where
  | INITIALIZING
  | CONFIGURING
  | UNKNOWN
  | ADDING
  | SOLVING
  | SATISFIED
  | UNSATISFIED
  | DELETING
  deriving DecidableEq, Repr

/-- `CaDiCaL::Solver::CubesWithStatus`. -/
structure CubesWithStatus where
  status : Int
  cubes : List Cube
  deriving DecidableEq, Repr

/-! ## Shared vectors -/

/-- The objects owned by `std::shared_ptr<Cube>` and
`std::shared_ptr<std::vector<size_t>>`, by address, and the next addresses
that `std::make_shared` hands out. -/
structure Heap where
  cubes : Nat → List Literal
  jumplists : Nat → List Nat
  nextCubes : Nat := 0
  nextJumplist : Nat := 0

/-- Dereference a `shared_ptr<Cube>`. -/
def Heap.cubesAt (heap : Heap) (a : Nat) : List Literal :=
  heap.cubes a

/-- Dereference a `shared_ptr<std::vector<size_t>>`. -/
def Heap.jumplistAt (heap : Heap) (a : Nat) : List Nat :=
  heap.jumplists a

/-- Overwrite the vector behind a `shared_ptr<Cube>`. -/
def Heap.setCubes (heap : Heap) (a : Nat) (v : List Literal) : Heap :=
  { heap with cubes := fun b => if b = a then v else heap.cubes b }

/-- Overwrite the vector behind a `shared_ptr<std::vector<size_t>>`. -/
def Heap.setJumplist (heap : Heap) (a : Nat) (v : List Nat) : Heap :=
  { heap with jumplists := fun b => if b = a then v else heap.jumplists b }

/-- A heap on which nothing has been allocated yet. -/
def Heap.empty : Heap :=
  { cubes := fun _ => [], jumplists := fun _ => [] }

/-! ## Paths -/

/-- Modelled from the spec: `parac_path` (`paracooba/common/path.h` is not part
of the sources).  A path is a depth together with its bits, the bits stored
most-significant-first in a 58 bit field. -/
structure parac_path where
  length : Nat
  path : Nat
  deriving DecidableEq, Repr

/-- Modelled from the spec: `parac_path_length`, the depth of a path. -/
def parac_path_length (p : parac_path) : Nat :=
  p.length

/-- Modelled from the spec: `parac_path_get_depth_shifted`, the bits of a path
right-justified (so that it is below `2 ^ depth`). -/
def parac_path_get_depth_shifted (p : parac_path) : Nat :=
  (p.path % 2 ^ 58) / 2 ^ (58 - p.length)

/-! ## Floating point used by `generateJumplist` -/

/-- Position of the highest set bit of a `size_t` (`0` for `0`). -/
def highBit (n : Nat) : Nat :=
  ((List.range 64).filter (fun k => 2 ^ k ≤ n)).length - 1

/-- Conversion `size_t → float` (the implicit conversion of the argument of
`std::log2f`): IEEE 754 binary32 has a 24 bit significand, the conversion
rounds to nearest, ties to even.  The result is an integer whenever the
argument is, so it is kept as a `Nat`. -/
def floatOfSizeT (n : Nat) : Nat :=
  if highBit n < 24 then n
  else
    let sh := highBit n - 23
    let q := n / 2 ^ sh
    let r := n % 2 ^ sh
    let half := 2 ^ (sh - 1)
    if half < r ∨ (r = half ∧ q % 2 = 1) then (q + 1) * 2 ^ sh else q * 2 ^ sh

/-! ## The terminator -/

/-- Address of a `volatile bool` stop flag. -/
abbrev FlagAddr := Nat

/-- The stop flags as another thread has set them at the moment they are
read. -/
abbrev Flags := FlagAddr → Bool

/-- Modelled from the spec: `CaDiCaLTerminator` (`cadical_terminator.hpp` is
not part of the sources).  It keeps the pointer to the global stop flag given
to its constructor, the pointer to the stop flag of the task being solved
(`setTerminatedPointer`) and the local-termination flag
(`terminateLocally`). -/
structure CaDiCaLTerminator where
  stop : Option FlagAddr
  terminated : Option FlagAddr := none
  locallyTerminated : Bool := false
  deriving DecidableEq, Repr

/-- Read a flag through a possibly null pointer. -/
def readFlag (flags : Flags) : Option FlagAddr → Bool
  | none => false
  | some a => flags a

/-- Modelled from the spec: `CaDiCaLTerminator::operator bool`, true when a
stop was requested through the global stop flag or through the stop flag of
the task (this is what `stoppedGlobally()` returns). -/
def CaDiCaLTerminator.toBool (t : CaDiCaLTerminator) (flags : Flags) : Bool :=
  readFlag flags t.stop || readFlag flags t.terminated

/-- Modelled from the spec: `CaDiCaLTerminator::terminateLocally`. -/
def CaDiCaLTerminator.terminateLocally (t : CaDiCaLTerminator) (terminate : Bool) :
    CaDiCaLTerminator :=
  { t with locallyTerminated := terminate }

/-- Modelled from the spec: `CaDiCaLTerminator::setTerminatedPointer`. -/
def CaDiCaLTerminator.setTerminatedPointer (t : CaDiCaLTerminator)
    (p : Option FlagAddr) : CaDiCaLTerminator :=
  { t with terminated := p }

/-! ## The engine -/

/-- The part of `CaDiCaL::Solver` that the handle drives: the literals added
with `add`, the current assumptions, whether `terminate()` was requested, the
state of the engine, and how often `solve()` and `generate_cubes()` were
entered. -/
structure Solver where
  added : List Literal := []
  assumptions : List Literal := []
  terminationForced : Bool := false
  state : State := State.CONFIGURING
  solveCalls : Nat := 0
  generateCubesCalls : Nat := 0
  deriving DecidableEq, Repr

/-- `Solver::assume`. -/
def Solver.assume (s : Solver) (lit : Literal) : Solver :=
  { s with assumptions := s.assumptions ++ [lit] }

/-- `Solver::add`. -/
def Solver.add (s : Solver) (lit : Literal) : Solver :=
  { s with added := s.added ++ [lit] }

/-- `Solver::reset_assumptions` of the CaDiCaL library: the engine first moves
to its steady state (`transition_to_steady_state`; the state is `UNKNOWN`,
called `STEADY` in later releases), then the assumptions are dropped. -/
def Solver.reset_assumptions (s : Solver) : Solver :=
  { s with assumptions := [], state := State.UNKNOWN }

/-- `Solver::terminate`. -/
def Solver.terminate (s : Solver) : Solver :=
  { s with terminationForced := true }

/-- `Solver::state`. -/
def Solver.getState (s : Solver) : State :=
  s.state

/-- `Solver::solve`; the engine reports the state `st`. -/
def Solver.solve (s : Solver) (st : State) : Solver :=
  { s with state := st, solveCalls := s.solveCalls + 1 }

/-- `Solver::generate_cubes`; the engine reports the state `st`. -/
def Solver.generate_cubes (s : Solver) (st : State) : Solver :=
  { s with state := st, generateCubesCalls := s.generateCubesCalls + 1 }

/-- `Solver::copy`: the clauses of `s` are copied into `other`. -/
def Solver.copy (s other : Solver) : Solver :=
  { other with added := s.added }

/-- `applyCubeAsAssumptionToSolver`. -/
def applyCubeAsAssumptionToSolver (cube : List Literal) (s : Solver) : Solver :=
  cube.foldl Solver.assume s

/-- Modelled from the spec: `SolverAssignment` (`solver_assignment.hpp` is not
part of the sources); the truth values of the variables `1 .. vars`. -/
structure SolverAssignment where
  values : List Bool
  deriving DecidableEq, Repr

/-- Modelled from the spec: `SolverAssignment::SerializeAssignmentFromSolver`,
reading `solver.val` for the variables `1 .. vars`. -/
def SolverAssignment.SerializeAssignmentFromSolver (vars : Int) (val : Nat → Bool) :
    SolverAssignment :=
  ⟨(List.range vars.toNat).map (fun i => val (i + 1))⟩

/-! ## The handle -/

/-- A timeout returned by the communicator's `set_timeout`. -/
abbrev parac_timeout := Nat

/-- Modelled from the spec: the part of `SolverConfig` that the handle reads
(`solver_config.hpp` is not part of the sources).  No additional portfolio
solvers are configured (`quapiSolvers()` is empty), so the solver handle of a
`CaDiCaLHandle` is always its embedded engine. -/
structure SolverConfig where
  InitialSplitTimeoutMS : Nat
  SymmetryBreakerOrder : Nat
  deriving DecidableEq, Repr

/-- `CaDiCaLHandle::Internal`. -/
structure Internal where
  solver : Solver := {}
  pregeneratedCubesCount : Nat := 0
  normalizedPathLength : Nat := 0
  vars : Int := 0
  incremental : Bool := false
  terminator : CaDiCaLTerminator
  path : String := ""
  pathToDelete : String := ""
  originatorId : Nat
  pregeneratedCubes : Nat
  pregeneratedCubesJumplist : Nat
  m_solverAssignment : Option SolverAssignment := none
  symmetryBreaker : Option Nat := none
  deriving DecidableEq, Repr

/-- `CaDiCaLHandle`, with the embedded engine as its solver handle. -/
structure CaDiCaLHandle where
  m_internal : Internal
  m_hasFormula : Bool := false
  m_lookaheadTimeout : Option parac_timeout := none
  m_interruptedLookahead : Bool := false
  m_solverConfig : Option SolverConfig := none
  deriving DecidableEq, Repr

/-- `CaDiCaLHandle::CaDiCaLHandle(parac_handle&, volatile bool&, parac_id)`:
both vectors are freshly allocated (`std::make_shared`). -/
def CaDiCaLHandle.create (heap : Heap) (stop : FlagAddr) (originatorId : Nat) :
    Heap × CaDiCaLHandle :=
  ({ cubes := fun b => if b = heap.nextCubes then [] else heap.cubes b
     jumplists := fun b => if b = heap.nextJumplist then [] else heap.jumplists b
     nextCubes := heap.nextCubes + 1
     nextJumplist := heap.nextJumplist + 1 },
   { m_internal :=
      { terminator := { stop := some stop }
        originatorId := originatorId
        pregeneratedCubes := heap.nextCubes
        pregeneratedCubesJumplist := heap.nextJumplist } })

/-- `CaDiCaLHandle::CaDiCaLHandle(CaDiCaLHandle& o, const SolverConfig& cfg)`:
the new `Internal` receives the two shared pointers of `o` and a null stop
pointer, the clauses of the solver of `o` are copied and so are the scalar
fields. -/
def CaDiCaLHandle.clone (o : CaDiCaLHandle) (cfg : SolverConfig) : CaDiCaLHandle :=
  { m_internal :=
      { solver := o.m_internal.solver.copy {}
        pregeneratedCubesCount := o.m_internal.pregeneratedCubesCount
        normalizedPathLength := o.m_internal.normalizedPathLength
        vars := o.m_internal.vars
        incremental := o.m_internal.incremental
        terminator := { stop := none }
        path := o.m_internal.path
        originatorId := o.m_internal.originatorId
        pregeneratedCubes := o.m_internal.pregeneratedCubes
        pregeneratedCubesJumplist := o.m_internal.pregeneratedCubesJumplist }
    m_solverConfig := some cfg }

/-! ## The cube table -/

/-- The loop of `generateJumplist`: `i` is the running index, `lastStart` the
start of the cube being read, `jl` the jumplist built so far. -/
def jumplistLoop : List Literal → Nat → Nat → List Nat → List Nat × Nat
  | [], _, lastStart, jl => (jl, lastStart)
  | lit :: rest, i, lastStart, jl =>
    if lit = 0 then jumplistLoop rest (i + 1) (i + 1) (jl ++ [lastStart])
    else jumplistLoop rest (i + 1) lastStart jl

/-- `CaDiCaLHandle::generateJumplist`.  `ceilLog2f x` is the `size_t` that
`std::ceil(std::log2f(x))` yields for the `float` `x` (libm is external). -/
def CaDiCaLHandle.generateJumplist (ceilLog2f : Nat → Nat) (heap : Heap)
    (h : CaDiCaLHandle) : Heap × CaDiCaLHandle :=
  let (jl, lastStart) :=
    jumplistLoop (heap.cubesAt h.m_internal.pregeneratedCubes) 0 0 []
  let count := jl.length
  (heap.setJumplist h.m_internal.pregeneratedCubesJumplist (jl ++ [lastStart]),
   { h with m_internal :=
      { h.m_internal with
        pregeneratedCubesCount := count
        normalizedPathLength := ceilLog2f (floatOfSizeT count) } })

/-- The flat layout of a list of cubes: every cube followed by a `0`. -/
def cubeLayout : List Cube → List Literal
  | [] => []
  | c :: cs => c ++ 0 :: cubeLayout cs

/-- The start positions of the cubes of `cubeLayout cs` when the layout begins
at position `i`. -/
def cubeStarts : Nat → List Cube → List Nat
  | _, [] => []
  | i, c :: cs => i :: cubeStarts (i + c.length + 1) cs

/-- `CaDiCaLHandle::getPregeneratedCubesCount`. -/
def CaDiCaLHandle.getPregeneratedCubesCount (h : CaDiCaLHandle) : Nat :=
  h.m_internal.pregeneratedCubesCount

/-- `CaDiCaLHandle::getNormalizedPathLength`. -/
def CaDiCaLHandle.getNormalizedPathLength (h : CaDiCaLHandle) : Nat :=
  h.m_internal.normalizedPathLength

/-- `CubeIteratorRange(begin, end)` for `begin = &v[beginPos]` and
`end = &v[endPos] - 1`: the literals it iterates over, `none` when the two
pointers do not delimit a range inside `v`.  For `endPos = v.size()` the
address `&v[endPos]` is the one-past-the-end pointer of the vector. -/
def cubeRange (v : List Literal) (beginPos endPos : Nat) : Option (List Literal) :=
  if 1 ≤ endPos ∧ beginPos ≤ endPos - 1 ∧ endPos ≤ v.length then
    some ((v.drop beginPos).take (endPos - 1 - beginPos))
  else none

/-- `CaDiCaLHandle::getCubeFromId`: the literals of the returned range;
`CubeIteratorRange()` is the empty cube, `none` stands for an access outside
the jumplist or the store. -/
def CaDiCaLHandle.getCubeFromId (heap : Heap) (h : CaDiCaLHandle) (id : Nat) :
    Option (List Literal) :=
  if id ≥ h.m_internal.pregeneratedCubesCount then some []
  else
    match (heap.jumplistAt h.m_internal.pregeneratedCubesJumplist)[id]?,
          (heap.jumplistAt h.m_internal.pregeneratedCubesJumplist)[id + 1]? with
    | some beginPos, some endPos =>
      cubeRange (heap.cubesAt h.m_internal.pregeneratedCubes) beginPos endPos
    | _, _ => none

/-- `CaDiCaLHandle::getCubeFromPath`. -/
def CaDiCaLHandle.getCubeFromPath (heap : Heap) (h : CaDiCaLHandle) (path : parac_path) :
    Option (List Literal) :=
  if parac_path_length path ≠ h.m_internal.normalizedPathLength then some []
  else h.getCubeFromId heap (parac_path_get_depth_shifted path)

/-! ## Solving -/

/-- What the engine reports from one `solve()`: the return code, the state it
is left in and the model it exposes through `val`. -/
structure SolveOutcome where
  r : Int
  state : State
  val : Nat → Bool

/-- `CaDiCaLHandle::Internal::assumeCube`. -/
def Internal.assumeCube (s : Internal) (c : List Literal) : Internal :=
  { s with solver := applyCubeAsAssumptionToSolver c s.solver }

/-- `CaDiCaLHandle::Internal::solve`. -/
def Internal.solve (s : Internal) (out : SolveOutcome) : parac_status × Internal :=
  let s1 := { s with solver := s.solver.solve out.state }
  if out.r = 0 then (parac_status.PARAC_ABORTED, s1)
  else if out.r = 10 then
    (parac_status.PARAC_SAT,
     { s1 with
       m_solverAssignment :=
         some (SolverAssignment.SerializeAssignmentFromSolver s1.vars out.val) })
  else if out.r = 20 then (parac_status.PARAC_UNSAT, s1)
  else (parac_status.PARAC_UNKNOWN, s1)

/-- `CaDiCaLHandle::Internal::terminate`. -/
def Internal.terminate (s : Internal) : Internal :=
  { s with
    terminator := s.terminator.terminateLocally true
    solver := s.solver.terminate }

/-- The part of `parac_task` that the handle reads: the address of its `stop`
flag. -/
structure parac_task where
  stop : FlagAddr
  deriving DecidableEq, Repr

/-- `CaDiCaLHandle::applyCubeAsAssumption(const CubeIteratorRange&)`. -/
def CaDiCaLHandle.applyCubeAsAssumptionRange (h : CaDiCaLHandle) (cube : List Literal) :
    CaDiCaLHandle :=
  { h with m_internal := h.m_internal.assumeCube cube }

/-- `CaDiCaLHandle::applyCubeAsAssumption(const Cube&)`. -/
def CaDiCaLHandle.applyCubeAsAssumption (h : CaDiCaLHandle) (cube : Cube) : CaDiCaLHandle :=
  if cube.length > 0 then { h with m_internal := h.m_internal.assumeCube cube } else h

/-- `CaDiCaLHandle::applyLearnedClause`. -/
def CaDiCaLHandle.applyLearnedClause (h : CaDiCaLHandle) (clause : List Literal) :
    CaDiCaLHandle :=
  { h with m_internal :=
      { h.m_internal with solver := (clause.foldl Solver.add h.m_internal.solver).add 0 } }

/-- `CaDiCaLHandle::stoppedGlobally`. -/
def CaDiCaLHandle.stoppedGlobally (h : CaDiCaLHandle) (flags : Flags) : Bool :=
  h.m_internal.terminator.toBool flags

/-- The destructor of the local `Cleanup` object of `CaDiCaLHandle::solve`. -/
def Internal.cleanup (s : Internal) : Internal :=
  { s with terminator := s.terminator.setTerminatedPointer none }

/-- `CaDiCaLHandle::solve`: `flags` are the stop flags when the terminator is
tested, `out` is what the engine reports if it is run. -/
def CaDiCaLHandle.solve (h : CaDiCaLHandle) (task : parac_task) (flags : Flags)
    (out : SolveOutcome) : parac_status × CaDiCaLHandle :=
  let i1 := { h.m_internal with
    terminator := h.m_internal.terminator.setTerminatedPointer (some task.stop) }
  let i2 := { i1 with terminator := i1.terminator.terminateLocally false }
  if i2.terminator.toBool flags then
    (parac_status.PARAC_ABORTED, { h with m_internal := i2.cleanup })
  else
    let i3 :=
      match h.m_solverConfig with
      | some cfg => { i2 with symmetryBreaker := some cfg.SymmetryBreakerOrder }
      | none => i2
    let r := i3.solve out
    (r.1, { h with m_internal := r.2.cleanup })

/-- `CaDiCaLHandle::terminate`. -/
def CaDiCaLHandle.terminate (h : CaDiCaLHandle) : CaDiCaLHandle :=
  { h with m_internal := h.m_internal.terminate }

/-- `CaDiCaLHandle::takeSolverAssignment`: the assignment is moved out. -/
def CaDiCaLHandle.takeSolverAssignment (h : CaDiCaLHandle) :
    Option SolverAssignment × CaDiCaLHandle :=
  (h.m_internal.m_solverAssignment,
   { h with m_internal := { h.m_internal with m_solverAssignment := none } })

/-! ## Splitting -/

/-- The literal both resplit functions read from the generated cubes: the last
literal of the first cube, `0` when there is no cube or the first one is
empty. -/
def lastLiteralOfFirstCube (cubesWithStatus : CubesWithStatus) : Literal :=
  match cubesWithStatus.cubes with
  | [] => 0
  | c :: _ => c.getLastD 0

/-- The result of the resplit functions once no split literal was found. -/
def statusWithoutSplit (st : State) : parac_status :=
  if st = State.SATISFIED then parac_status.PARAC_SAT
  else if st = State.UNSATISFIED then parac_status.PARAC_UNSAT
  else parac_status.PARAC_NO_SPLITS_LEFT

/-- `CaDiCaLHandle::resplitOnce`; `cubesWithStatus` and `st` are what
`generate_cubes(1, 1)` returns and the state it leaves the engine in. -/
def CaDiCaLHandle.resplitOnce (h : CaDiCaLHandle) (_path : parac_path) (literals : Cube)
    (cubesWithStatus : CubesWithStatus) (st : State) :
    (parac_status × Option (Cube × Cube)) × CaDiCaLHandle :=
  let h1 := { h with m_internal :=
    { h.m_internal with terminator := h.m_internal.terminator.terminateLocally false } }
  let literals2 := literals
  let h2 := h1.applyCubeAsAssumption literals
  let h3 := { h2 with m_internal :=
    { h2.m_internal with solver := h2.m_internal.solver.generate_cubes st } }
  let lit_to_split := lastLiteralOfFirstCube cubesWithStatus
  let h4 := { h3 with m_internal :=
    { h3.m_internal with solver := h3.m_internal.solver.reset_assumptions } }
  if lit_to_split = 0 then
    ((statusWithoutSplit h4.m_internal.solver.getState, none), h4)
  else
    ((parac_status.PARAC_SPLITTED,
      some (literals ++ [lit_to_split], literals2 ++ [-lit_to_split])),
     { h4 with m_internal :=
       { h4.m_internal with solver := h4.m_internal.solver.reset_assumptions } })

/-- One run of `generate_cubes` under a lookahead timeout: what the static
`setTimeout` returned (null without a communicator), whether that timeout
expired before the handle looked at it again, the cubes the engine returned
and the state it is left in. -/
structure GenerateCubesRun where
  timeout : Option parac_timeout
  expired : Bool
  cubesWithStatus : CubesWithStatus
  state : State
  deriving DecidableEq, Repr

/-- The expiry callback handed to `setTimeout` by `resplitCube`, `lookahead`
and `fastLookahead`. -/
def CaDiCaLHandle.lookaheadTimeoutExpired (h : CaDiCaLHandle) : CaDiCaLHandle :=
  ({ h with m_lookaheadTimeout := none, m_interruptedLookahead := true }).terminate

/-- Arm the timeout and run `generate_cubes`: the callback runs if a timeout
was armed and expires. -/
def CaDiCaLHandle.generateCubesUnderTimeout (h : CaDiCaLHandle) (run : GenerateCubesRun) :
    CaDiCaLHandle :=
  let h1 := { h with m_lookaheadTimeout := run.timeout }
  let h2 := if run.timeout.isSome ∧ run.expired then h1.lookaheadTimeoutExpired else h1
  { h2 with m_internal :=
    { h2.m_internal with solver := h2.m_internal.solver.generate_cubes run.state } }

/-- `CaDiCaLHandle::resplitCube`; `flags0` are the stop flags at the test
before the timeout is armed, `flags1` those at the test after
`generate_cubes` returned.  The literal of a result that is not a split is
`Literal{}`, i.e. `0`.  The result is `none` when `assert(!m_lookaheadTimeout)`
fails: the program is aborted there and the call does not return. -/
def CaDiCaLHandle.resplitCube (h : CaDiCaLHandle) (_p : parac_path) (currentCube : Cube)
    (_solverConfig : SolverConfig) (flags0 flags1 : Flags) (run : GenerateCubesRun) :
    Option ((parac_status × Literal) × CaDiCaLHandle) :=
  let h1 := { h with m_internal :=
    { h.m_internal with terminator := h.m_internal.terminator.terminateLocally false } }
  let h2 := h1.applyCubeAsAssumption currentCube
  if h2.m_lookaheadTimeout.isSome then none
  else if h2.stoppedGlobally flags0 then some ((parac_status.PARAC_ABORTED, 0), h2)
  else
    let h3 := h2.generateCubesUnderTimeout run
    if h3.m_internal.terminator.toBool flags1 then
      some ((parac_status.PARAC_ABORTED, 0), { h3 with m_lookaheadTimeout := none })
    else
      let h4 := { h3 with m_lookaheadTimeout := none }
      let lit_to_split := Int.ofNat (lastLiteralOfFirstCube run.cubesWithStatus).natAbs
      let h5 := { h4 with m_internal :=
        { h4.m_internal with solver := h4.m_internal.solver.reset_assumptions } }
      if lit_to_split = 0 then
        some ((statusWithoutSplit h5.m_internal.solver.getState, 0), h5)
      else some ((parac_status.PARAC_SPLITTED, lit_to_split), h5)

/-- The loop of `lookahead` that copies the generated cubes into the store,
each followed by a `0`. -/
def appendCubes (store : List Literal) (cubes : List Cube) : List Literal :=
  cubes.foldl (fun acc cube => acc ++ cube ++ [0]) store

/-- `CaDiCaLHandle::lookahead`. -/
def CaDiCaLHandle.lookahead (ceilLog2f : Nat → Nat) (heap : Heap) (h : CaDiCaLHandle)
    (_depth _min_depth : Nat) (run : GenerateCubesRun) :
    parac_status × Heap × CaDiCaLHandle :=
  let cubesAddr := h.m_internal.pregeneratedCubes
  let cleared : Heap × CaDiCaLHandle :=
    if heap.cubesAt cubesAddr ≠ [] then
      ((heap.setCubes cubesAddr []).setJumplist h.m_internal.pregeneratedCubesJumplist [],
       { h with m_internal := { h.m_internal with pregeneratedCubesCount := 0 } })
    else (heap, h)
  let h2 := cleared.2.generateCubesUnderTimeout run
  let h3 := { h2 with m_interruptedLookahead := true }
  if run.cubesWithStatus.status = 20 then (parac_status.PARAC_UNSAT, cleared.1, h3)
  else if run.cubesWithStatus.status = 10 then (parac_status.PARAC_SAT, cleared.1, h3)
  else
    let heap2 := cleared.1.setCubes cubesAddr
      (appendCubes (cleared.1.cubesAt cubesAddr) run.cubesWithStatus.cubes)
    let r := h3.generateJumplist ceilLog2f heap2
    (parac_status.PARAC_SPLITTED, r.1, r.2)

/-- `CaDiCaLHandle::fastLookahead`. -/
def CaDiCaLHandle.fastLookahead (h : CaDiCaLHandle) (_depth : Nat) (run : GenerateCubesRun) :
    (parac_status × List Cube) × CaDiCaLHandle :=
  let h1 := { h with m_lookaheadTimeout := run.timeout }
  let h2 := { h1 with m_internal :=
    { h1.m_internal with terminator := h1.m_internal.terminator.terminateLocally true } }
  let h3 := if run.timeout.isSome ∧ run.expired then h2.lookaheadTimeoutExpired else h2
  let h4 := { h3 with m_internal :=
    { h3.m_internal with
      solver := h3.m_internal.solver.generate_cubes run.state
      terminator := h3.m_internal.terminator.terminateLocally false } }
  if run.cubesWithStatus.status = 20 then ((parac_status.PARAC_UNSAT, []), h4)
  else if run.cubesWithStatus.status = 10 then ((parac_status.PARAC_SAT, []), h4)
  else ((parac_status.PARAC_SPLITTED, run.cubesWithStatus.cubes), h4)

/-! ## Parsing -/

/-- What `Solver::read_dimacs` reports: its error message (null on success),
the number of variables, the incremental flag, and the cube literals it
appended to the cube store. -/
structure DimacsRead where
  parseStatus : Option String
  vars : Int
  incremental : Bool
  cubes : List Literal
  deriving DecidableEq, Repr

/-- `CaDiCaLHandle::parseFile`. -/
def CaDiCaLHandle.parseFile (ceilLog2f : Nat → Nat) (heap : Heap) (h : CaDiCaLHandle)
    (path : String) (rd : DimacsRead) : parac_status × Heap × CaDiCaLHandle :=
  let h1 := { h with m_internal :=
    { h.m_internal with path := if path = "-" then "/dev/stdin" else path } }
  let cubesAddr := h1.m_internal.pregeneratedCubes
  let heap1 := heap.setCubes cubesAddr (heap.cubesAt cubesAddr ++ rd.cubes)
  let h2 := { h1 with m_internal :=
    { h1.m_internal with vars := rd.vars, incremental := rd.incremental } }
  if rd.parseStatus ≠ none then (parac_status.PARAC_PARSE_ERROR, heap1, h2)
  else
    let r := if (heap1.cubesAt cubesAddr).length ≠ 0 then h2.generateJumplist ceilLog2f heap1
             else (heap1, h2)
    (parac_status.PARAC_OK, r.1, { r.2 with m_hasFormula := true })

/-- `CaDiCaLHandle::prepareString`; `status` and `path` are what `StringToFile`
returned. -/
def CaDiCaLHandle.prepareString (h : CaDiCaLHandle) (status : parac_status) (path : String) :
    (parac_status × String) × CaDiCaLHandle :=
  ((status, path), { h with m_internal := { h.m_internal with pathToDelete := path } })

/-- `CaDiCaLHandle::~CaDiCaLHandle`: the file it removes, if any. -/
def CaDiCaLHandle.destroy (h : CaDiCaLHandle) : Option String :=
  if h.m_internal.pathToDelete ≠ "" then some h.m_internal.pathToDelete else none

/-! ## Operations as data -/

/-- The operations of a handle, each with what its environment (engine, stop
flags, timer, file system) contributes to it. -/
inductive Op where
  | parseFile (path : String) (rd : DimacsRead)
  | prepareString (status : parac_status) (path : String)
  | generateJumplist
  | applyCubeAsAssumption (cube : Cube)
  | applyLearnedClause (clause : List Literal)
  | solve (task : parac_task) (flags : Flags) (out : SolveOutcome)
  | terminate
  | takeSolverAssignment
  | resplitOnce (path : parac_path) (literals : Cube) (cubesWithStatus : CubesWithStatus)
      (st : State)
  | resplitCube (p : parac_path) (currentCube : Cube) (cfg : SolverConfig)
      (flags0 flags1 : Flags) (run : GenerateCubesRun)
  | lookahead (depth min_depth : Nat) (run : GenerateCubesRun)
  | fastLookahead (depth : Nat) (run : GenerateCubesRun)

/-- The operations that write the shared cube store or jumplist. -/
def Op.writesCubeTable : Op → Bool
  | Op.parseFile _ _ => true
  | Op.generateJumplist => true
  | Op.lookahead _ _ _ => true
  | _ => false

/-- Perform one operation on a handle.  A `resplitCube` whose assertion fails
does not return and leaves no state behind: the handle is kept as the call
found it. -/
def CaDiCaLHandle.perform (ceilLog2f : Nat → Nat) (heap : Heap) (h : CaDiCaLHandle) :
    Op → Heap × CaDiCaLHandle
  | Op.parseFile path rd => (h.parseFile ceilLog2f heap path rd).2
  | Op.prepareString status path => (heap, (h.prepareString status path).2)
  | Op.generateJumplist => h.generateJumplist ceilLog2f heap
  | Op.applyCubeAsAssumption cube => (heap, h.applyCubeAsAssumption cube)
  | Op.applyLearnedClause clause => (heap, h.applyLearnedClause clause)
  | Op.solve task flags out => (heap, (h.solve task flags out).2)
  | Op.terminate => (heap, h.terminate)
  | Op.takeSolverAssignment => (heap, h.takeSolverAssignment.2)
  | Op.resplitOnce path literals cubesWithStatus st =>
    (heap, (h.resplitOnce path literals cubesWithStatus st).2)
  | Op.resplitCube p currentCube cfg flags0 flags1 run =>
    match h.resplitCube p currentCube cfg flags0 flags1 run with
    | some r => (heap, r.2)
    | none => (heap, h)
  | Op.lookahead depth min_depth run => (h.lookahead ceilLog2f heap depth min_depth run).2
  | Op.fastLookahead depth run => (heap, (h.fastLookahead depth run).2)

/-- Perform a sequence of operations on a handle. -/
def CaDiCaLHandle.performAll (ceilLog2f : Nat → Nat) (heap : Heap) (h : CaDiCaLHandle) :
    List Op → Heap × CaDiCaLHandle
  | [] => (heap, h)
  | op :: ops =>
    let r := h.perform ceilLog2f heap op
    r.2.performAll ceilLog2f r.1 ops

/-- A sequence of `solve()` calls on a handle: the statuses returned, oldest
first, and the handle afterwards. -/
def CaDiCaLHandle.solveAll (h : CaDiCaLHandle) :
    List (parac_task × Flags × SolveOutcome) → List parac_status × CaDiCaLHandle
  | [] => ([], h)
  | (task, flags, out) :: calls =>
    let r := h.solve task flags out
    let rs := r.2.solveAll calls
    (r.1 :: rs.1, rs.2)

/-! ## Several handles over one heap -/

/-- The heap together with the handles that exist, by index. -/
structure World where
  heap : Heap
  handles : List CaDiCaLHandle

/-- Copy-construct a new handle from handle `i`; it gets the next index. -/
def World.clone (w : World) (i : Nat) (cfg : SolverConfig) : World :=
  match w.handles[i]? with
  | none => w
  | some o => { w with handles := w.handles ++ [o.clone cfg] }

/-- Perform one operation on handle `j`. -/
def World.perform (ceilLog2f : Nat → Nat) (w : World) (j : Nat) (op : Op) : World :=
  match w.handles[j]? with
  | none => w
  | some c =>
    { heap := (c.perform ceilLog2f w.heap op).1
      handles := w.handles.set j (c.perform ceilLog2f w.heap op).2 }

/-- Perform a sequence of operations on handle `j`. -/
def World.performAll (ceilLog2f : Nat → Nat) (w : World) (j : Nat) : List Op → World
  | [] => w
  | op :: ops => (w.perform ceilLog2f j op).performAll ceilLog2f j ops

/-! ## Concrete inputs -/

/-- A libm whose `log2f` is exact as far as `std::ceil` can tell: the number of
exponents `L` with `2 ^ L < x`, which is `⌈log2 x⌉` for `1 ≤ x ≤ 2 ^ 64`. -/
def exactCeilLog2 (x : Nat) : Nat :=
  ((List.range 65).filter (fun L => 2 ^ L < x)).length

/-- A handle right after construction on an empty heap (stop flag at address
`0`, originator `0`). -/
def freshHandle : CaDiCaLHandle :=
  (CaDiCaLHandle.create Heap.empty 0 0).2

/-- The heap of `freshHandle` with the given cube store. -/
def heapWithStore (store : List Literal) : Heap :=
  (CaDiCaLHandle.create Heap.empty 0 0).1.setCubes 0 store

/-- No stop flag is set. -/
def noFlags : Flags :=
  fun _ => false

/-- Only the stop flag at address `1` is set. -/
def flagOneSet : Flags :=
  fun a => decide (a = 1)

/-- A solver configuration without portfolio solvers. -/
def plainConfig : SolverConfig :=
  { InitialSplitTimeoutMS := 1000, SymmetryBreakerOrder := 0 }

/-- A world with one parsed handle holding the cubes `[1]` and `[2]`. -/
def twoCubeWorld : World :=
  { heap := (freshHandle.generateJumplist exactCeilLog2 (heapWithStore [1, 0, 2, 0])).1
    handles := [(freshHandle.generateJumplist exactCeilLog2 (heapWithStore [1, 0, 2, 0])).2] }

/-- The handle of `twoCubeWorld`. -/
def twoCubeParent : CaDiCaLHandle :=
  (freshHandle.generateJumplist exactCeilLog2 (heapWithStore [1, 0, 2, 0])).2

/-- A lookahead run that yields the single cube `[3]`, its timeout cancelled in
time. -/
def oneCubeRun : GenerateCubesRun :=
  { timeout := some 7, expired := false, cubesWithStatus := ⟨0, [[3]]⟩, state := State.UNKNOWN }

/-- The root path. -/
def rootPath : parac_path :=
  { length := 0, path := 0 }

/-- An engine run that finds a model. -/
def satOutcome : SolveOutcome :=
  { r := 10, state := State.SATISFIED, val := fun _ => true }

/-- An engine run that refutes the formula. -/
def unsatOutcome : SolveOutcome :=
  { r := 20, state := State.UNSATISFIED, val := fun _ => false }

/-- A read of a file whose cube line `a 1 0` is followed by a syntax error. -/
def failedRead : DimacsRead :=
  { parseStatus := some "unexpected character", vars := 1, incremental := false, cubes := [1, 0] }

/-- A read of a well-formed file without cube lines. -/
def plainRead : DimacsRead :=
  { parseStatus := none, vars := 1, incremental := false, cubes := [] }

/-- The path returned by the last `prepareString` among the operations, if
there is one. -/
def lastPreparedPath : List Op → Option String
  | [] => none
  | op :: ops =>
    match lastPreparedPath ops with
    | some p => some p
    | none =>
      match op with
      | Op.prepareString _ path => some path
      | _ => none

/-- A read of a well-formed file with the cube lines `a 1 0` and `a 2 0`. -/
def twoCubeRead : DimacsRead :=
  { parseStatus := none, vars := 2, incremental := false, cubes := [1, 0, 2, 0] }

/-- The jumplist of a handle fits its cube store: either the cube count is `0`,
or the jumplist has `count + 1` entries, starts with `0`, is strictly
increasing and every entry is at most the length of the flat cube store. -/
def CaDiCaLHandle.jumplistWellFormed (heap : Heap) (h : CaDiCaLHandle) : Prop :=
  h.m_internal.pregeneratedCubesCount = 0 ∨
  ((heap.jumplistAt h.m_internal.pregeneratedCubesJumplist).length
      = h.m_internal.pregeneratedCubesCount + 1 ∧
   (heap.jumplistAt h.m_internal.pregeneratedCubesJumplist)[0]? = some 0 ∧
   (heap.jumplistAt h.m_internal.pregeneratedCubesJumplist).Pairwise (fun a b => a < b) ∧
   ∀ x ∈ heap.jumplistAt h.m_internal.pregeneratedCubesJumplist,
     x ≤ (heap.cubesAt h.m_internal.pregeneratedCubes).length)

end parac.solver

/-!
# The timeout controller of the communicator module

A shallow embedding of `modules/communicator/timeout_controller.cpp`.  The
controller keeps its pending timeouts in a `std::list`; the `parac_timeout*`
it hands out points into the list node, so a timeout is identified by its
node.  Nodes are numbered in the order of their allocation.  Expiry callbacks
are opaque: an operation reports which callbacks it invoked.
-/

namespace parac.communicator

/-- One invocation `expired(&timeout)` of an expiry callback: the callback,
the timeout it is invoked on and the `expired_userdata` it finds there. -/
structure ExpiryCall where
  callback : Nat
  timeout : Nat
  userdata : Option Nat
  deriving DecidableEq, Repr

/-- The fields of `parac_timeout` that the controller writes (`timeout.h` is
not part of the sources); a null pointer is `none`.  The `cancel` field always
holds the cancel token installed by `setTimeout`. -/
structure parac_timeout where
  expired : Option Nat
  expired_userdata : Option Nat
  deriving DecidableEq, Repr

/-- `TimeoutController::Internal::Timeout`, a node of the timeout list; `node`
identifies it (and with it the `parac_timeout*` handed out).  Its timer is
waiting as long as the node exists. -/
structure Timeout where
  node : Nat
  timeout : parac_timeout
  deriving DecidableEq, Repr

/-- `Timeout::~Timeout`: the callback is invoked if it is still set, then the
timer is cancelled. -/
def Timeout.destroy (t : Timeout) : List ExpiryCall :=
  match t.timeout.expired with
  | some cb => [⟨cb, t.node, t.timeout.expired_userdata⟩]
  | none => []

/-- `TimeoutController` with its `Internal`: the pending timeouts, front first,
and the number of nodes allocated so far. -/
structure TimeoutController where
  timeoutList : List Timeout := []
  allocated : Nat := 0
  deriving DecidableEq, Repr

/-- The list node a `parac_timeout*` points into, if it still exists. -/
def TimeoutController.find (c : TimeoutController) (timeout : Nat) : Option Timeout :=
  c.timeoutList.find? (fun e => e.node = timeout)

/-- `TimeoutController::setTimeout`: a new node at the front of the list; the
pointer to its `parac_timeout` is returned. -/
def TimeoutController.setTimeout (c : TimeoutController) (_ms : Nat) (userdata : Option Nat)
    (expiery_cb : Option Nat) : Nat × TimeoutController :=
  (c.allocated,
   { timeoutList :=
       { node := c.allocated
         timeout := { expired := expiery_cb, expired_userdata := userdata } } :: c.timeoutList
     allocated := c.allocated + 1 })

/-- `TimeoutController::cancel`: `timeout->expired` is cleared and the node is
erased from the list, which runs its destructor.  `none` when the pointer does
not point into a node of the list any more. -/
def TimeoutController.cancel (c : TimeoutController) (timeout : Nat) :
    Option (TimeoutController × List ExpiryCall) :=
  match c.find timeout with
  | none => none
  | some e =>
    let e1 : Timeout := { e with timeout := { e.timeout with expired := none } }
    some ({ c with timeoutList := c.timeoutList.filter (fun x => x.node ≠ timeout) },
          e1.destroy)

/-- The cancel token that `setTimeout` stores in `timeout.cancel`: it clears
`expired_userdata` and `expired` and calls `TimeoutController::cancel`. -/
def TimeoutController.cancelToken (c : TimeoutController) (t : Nat) :
    Option (TimeoutController × List ExpiryCall) :=
  match c.find t with
  | none => none
  | some _ =>
    let c1 : TimeoutController :=
      { c with timeoutList := c.timeoutList.map (fun x =>
          if x.node = t then { x with timeout := { expired := none, expired_userdata := none } }
          else x) }
    c1.cancel t

/-- The completion handler that `setTimeout` passes to `async_wait`, for the
timer of node `elem`; `errc` tells whether the wait was aborted.  A handler
that runs without error looks into its node, `none` when the node does not
exist any more. -/
def TimeoutController.timerHandler (c : TimeoutController) (elem : Nat) (errc : Bool) :
    Option (TimeoutController × List ExpiryCall) :=
  if errc then some (c, [])
  else
    match c.find elem with
    | none => none
    | some e =>
      match e.timeout.expired with
      | none => some (c, [])
      | some cb =>
        match c.cancel elem with
        | none => none
        | some (c1, calls) => some (c1, ⟨cb, elem, e.timeout.expired_userdata⟩ :: calls)

/-- `TimeoutController::~TimeoutController`: the list is destroyed with the
`Internal`, node by node. -/
def TimeoutController.destroy (c : TimeoutController) : TimeoutController × List ExpiryCall :=
  ({ c with timeoutList := [] }, c.timeoutList.flatMap Timeout.destroy)

/-- What can happen to a controller. -/
inductive Event where
  | setTimeout (ms : Nat) (userdata : Option Nat) (expiery_cb : Option Nat)
  | cancelToken (t : Nat)
  | cancel (timeout : Nat)
  | timerHandler (elem : Nat) (errc : Bool)
  deriving DecidableEq, Repr

/-- One event on the controller and the callbacks it invokes. -/
def TimeoutController.step (c : TimeoutController) :
    Event → Option (TimeoutController × List ExpiryCall)
  | Event.setTimeout ms userdata cb => some ((c.setTimeout ms userdata cb).2, [])
  | Event.cancelToken t => c.cancelToken t
  | Event.cancel timeout => c.cancel timeout
  | Event.timerHandler elem errc => c.timerHandler elem errc

/-- A sequence of events and all callbacks invoked on the way; `none` when one
of the events is not defined. -/
def TimeoutController.run (c : TimeoutController) :
    List Event → Option (TimeoutController × List ExpiryCall)
  | [] => some (c, [])
  | ev :: evs =>
    match c.step ev with
    | none => none
    | some (c1, calls1) =>
      match c1.run evs with
      | none => none
      | some (c2, calls2) => some (c2, calls1 ++ calls2)

/-- Every node of the list was allocated by this controller, and no two nodes
are the same. -/
def TimeoutController.wellFormed (c : TimeoutController) : Prop :=
  (∀ e ∈ c.timeoutList, e.node < c.allocated) ∧ (c.timeoutList.map Timeout.node).Nodup

/-- Node `t` was allocated by this controller and is no longer in its list;
every node in the list was allocated by the controller. -/
def TimeoutController.retired (c : TimeoutController) (t : Nat) : Prop :=
  t < c.allocated ∧ ∀ e ∈ c.timeoutList, e.node ≠ t ∧ e.node < c.allocated

/-- A controller with one pending timeout (node `0`, callback `42`, userdata
`5`). -/
def oneTimeout : TimeoutController :=
  (TimeoutController.setTimeout {} 1000 (some 5) (some 42)).2

/-!
# The send queue of the communicator module

Only the declaration of `MessageSendQueue` (`message_send_queue.hpp`) is part
of the sources; `front`, `popFromQueued` and `send` are modelled from the
specification of the message send queue and the comments of the declaration.
-/

/-- Modelled from the spec: `MessageSendQueue::Entry` (defined in
`message_send_queue.cpp`, which is not part of the sources): the message number
in its header, its body and the time it was written to the network. -/
structure Entry where
  number : Nat
  body : Nat
  sent : Option Nat := none
  deriving DecidableEq, Repr

/-- The private state of `MessageSendQueue`: `m_waitingForACK` (a `std::map`
from message number to entry), `m_queued` (a `std::queue`, front first) and
`m_messageNumber`. -/
structure MessageSendQueue where
  m_waitingForACK : Nat → Option Entry := fun _ => none
  m_queued : List Entry := []
  m_messageNumber : Nat := 0

/-- Modelled from the spec: `MessageSendQueue::send`, "assigns
`seq = next_seq++`, appends to `queued`". -/
def MessageSendQueue.send (q : MessageSendQueue) (body : Nat) : MessageSendQueue :=
  { q with
    m_queued := q.m_queued ++ [{ number := q.m_messageNumber, body := body }]
    m_messageNumber := q.m_messageNumber + 1 }

/-- Modelled from the spec: `MessageSendQueue::front`, "Get the topmost entry
queued for sending. It is not removed from the internal queue!"; `none` on an
empty queue. -/
def MessageSendQueue.front (q : MessageSendQueue) : Option (Entry × MessageSendQueue) :=
  match q.m_queued with
  | [] => none
  | e :: _ => some (e, q)

/-- Modelled from the spec: `MessageSendQueue::popFromQueued`, "Removes the
entry from the queue, adds it into the waiting for ACK map and sets the
internal sent timestamp"; `none` on an empty queue. -/
def MessageSendQueue.popFromQueued (q : MessageSendQueue) (now : Nat) :
    Option MessageSendQueue :=
  match q.m_queued with
  | [] => none
  | e :: rest =>
    some { q with
      m_queued := rest
      m_waitingForACK := fun k =>
        if k = e.number then some { e with sent := some now } else q.m_waitingForACK k }

end parac.communicator

/-!
# Compute nodes of the broker module

The serialized parts of `ComputeNode` (`broker_compute_node.hpp`).  An archive
is the sequence of values written to it; `serialize` visits the same fields in
the same order when it saves and when it loads.  Integer fields keep the value
of their C++ type, nothing is computed with them.
-/

namespace parac.broker

/-- One value in a cereal archive. -/
inductive ArchiveValue where
  | string (s : String)
  | uint16 (n : Nat)
  | uint32 (n : Nat)
  | uint64 (n : Nat)
  | bool (b : Bool)
  | size (n : Nat)
  deriving DecidableEq, Repr

/-- The content of an archive, in the order it was written. -/
abbrev Archive := List ArchiveValue

/-- `ComputeNode::Description`; `isLocal` is the field `local`. -/
structure Description where
  name : String := ""
  host : String := ""
  workers : Nat := 0
  udpListenPort : Nat := 0
  tcpListenPort : Nat := 0
  daemon : Bool := true
  isLocal : Bool := false
  deriving DecidableEq, Repr

/-- `Description::serialize` with an output archive. -/
def Description.save (d : Description) : Archive :=
  [ArchiveValue.string d.name, ArchiveValue.string d.host, ArchiveValue.uint32 d.workers,
   ArchiveValue.uint16 d.udpListenPort, ArchiveValue.uint16 d.tcpListenPort,
   ArchiveValue.bool d.daemon]

/-- `Description::serialize` with an input archive: the visited fields of `d`
are overwritten; the rest of the archive is returned. -/
def Description.load (d : Description) : Archive → Option (Description × Archive)
  | ArchiveValue.string name :: ArchiveValue.string host :: ArchiveValue.uint32 workers ::
      ArchiveValue.uint16 udpListenPort :: ArchiveValue.uint16 tcpListenPort ::
      ArchiveValue.bool daemon :: rest =>
    some ({ d with
            name := name
            host := host
            workers := workers
            udpListenPort := udpListenPort
            tcpListenPort := tcpListenPort
            daemon := daemon }, rest)
  | _ => none

/-- `ComputeNode::SolverInstance`. -/
structure SolverInstance where
  formula_received : Bool := false
  formula_parsed : Bool := false
  workQueueSize : Nat := 0
  deriving DecidableEq, Repr

/-- `SolverInstance::serialize` with an output archive. -/
def SolverInstance.save (x : SolverInstance) : Archive :=
  [ArchiveValue.bool x.formula_parsed, ArchiveValue.uint64 x.workQueueSize]

/-- `SolverInstance::serialize` with an input archive. -/
def SolverInstance.load (x : SolverInstance) : Archive → Option (SolverInstance × Archive)
  | ArchiveValue.bool formula_parsed :: ArchiveValue.uint64 workQueueSize :: rest =>
    some ({ x with formula_parsed := formula_parsed, workQueueSize := workQueueSize }, rest)
  | _ => none

/-- `SolverInstance::operator==`. -/
def SolverInstance.eq (x o : SolverInstance) : Bool :=
  x.formula_received == o.formula_received &&
  x.formula_parsed == o.formula_parsed &&
  x.workQueueSize == o.workQueueSize

/-- The serialized part of `ComputeNode::Status`: the map `solverInstances`,
as its entries in key order. -/
structure Status where
  solverInstances : List (Nat × SolverInstance) := []
  deriving DecidableEq, Repr

/-- `Status::serialize` with an output archive: cereal writes the size of the
map and then every key with its value. -/
def Status.save (s : Status) : Archive :=
  ArchiveValue.size s.solverInstances.length ::
    s.solverInstances.flatMap (fun kv => ArchiveValue.uint64 kv.1 :: kv.2.save)

/-- Loading `n` map items: every value is loaded into a default-constructed
`SolverInstance`. -/
def loadSolverInstances : Nat → Archive → Option (List (Nat × SolverInstance) × Archive)
  | 0, ar => some ([], ar)
  | n + 1, ArchiveValue.uint64 key :: ar =>
    match SolverInstance.load {} ar with
    | none => none
    | some (value, ar1) =>
      match loadSolverInstances n ar1 with
      | none => none
      | some (items, ar2) => some ((key, value) :: items, ar2)
  | _ + 1, _ => none

/-- `Status::serialize` with an input archive: the map is cleared and refilled
from the archive. -/
def Status.load (_s : Status) : Archive → Option (Status × Archive)
  | ArchiveValue.size n :: ar =>
    match loadSolverInstances n ar with
    | none => none
    | some (items, rest) => some ({ solverInstances := items }, rest)
  | _ => none

end parac.broker

/-!
# The module loader of the executable

A shallow embedding of `executable/ModuleLoader.cpp`.  A
`boost::filesystem::path` is the list of the segments joined by `operator/`;
the empty path is the empty list.
-/

namespace paracooba

/-- A `boost::filesystem::path`. -/
abbrev Path := List String

/-- Modelled from the spec: `parac_module_type` (`paracooba/module.h` is not
part of the sources), the four modules. -/
inductive parac_module_type where
  | PARAC_MOD_BROKER
  | PARAC_MOD_RUNNER
  | PARAC_MOD_SOLVER
  | PARAC_MOD_COMMUNICATOR
  deriving DecidableEq, Repr

/-- Modelled from the spec: `parac_module_type_to_str`. -/
def parac_module_type_to_str : parac_module_type → String
  | parac_module_type.PARAC_MOD_BROKER => "broker"
  | parac_module_type.PARAC_MOD_RUNNER => "runner"
  | parac_module_type.PARAC_MOD_SOLVER => "solver"
  | parac_module_type.PARAC_MOD_COMMUNICATOR => "communicator"

/-- What the loader finds around it: the current directory, the location of the
program, and for which library paths `ImportModuleDiscoverFunc` succeeds (for
the others it throws `boost::system::system_error`). -/
structure Env where
  current_path : Path
  program_location : Path
  imports : Path → Bool

/-- `PathSource`, a `boost::asio::coroutine`: `value` counts the `yield`
statements passed so far, `complete` is set once the `reenter` block was
left. -/
structure PathSource where
  type : parac_module_type
  value : Nat := 0
  complete : Bool := false
  deriving DecidableEq, Repr

/-- The `yield return` statements of `PathSource::operator()`, in order. -/
def PathSource.yields (env : Env) (type : parac_module_type) : List Path :=
  [env.current_path,
   env.current_path ++ [parac_module_type_to_str type],
   env.current_path ++ ["modules"] ++ [parac_module_type_to_str type],
   env.program_location.dropLast,
   env.program_location.dropLast ++ [parac_module_type_to_str type],
   env.program_location.dropLast ++ ["modules"] ++ [parac_module_type_to_str type],
   ["/usr/local/lib/paracooba"],
   ["/usr/local/lib"],
   ["/usr/lib/paracooba"],
   ["/usr/lib"]]

/-- `coroutine::is_complete`. -/
def PathSource.is_complete (p : PathSource) : Bool :=
  p.complete

/-- `PathSource::operator()`: the coroutine resumes after the last `yield` it
passed and returns at the next one; when none is left it leaves the `reenter`
block, which completes it, and returns the empty path. -/
def PathSource.call (env : Env) (p : PathSource) : Path × PathSource :=
  if p.complete then ([], p)
  else
    match (PathSource.yields env p.type)[p.value]? with
    | some path => (path, { p with value := p.value + 1 })
    | none => ([], { p with complete := true })

/-- What `ModuleLoader::load(type)` did: the library paths it tried to import,
in order, and the libraries whose discover function it called. -/
structure LoadResult where
  tried : List Path
  discovered : List Path
  deriving DecidableEq, Repr

/-- The `while` loop of `ModuleLoader::load(type)`, at most `fuel` rounds. -/
def loadLoop (env : Env) (name : String) :
    Nat → PathSource → List Path → Option LoadResult
  | 0, _, _ => none
  | fuel + 1, pathSource, tried =>
    if pathSource.is_complete then some { tried := tried, discovered := [] }
    else
      let r := PathSource.call env pathSource
      if env.imports (r.1 ++ [name]) then
        some { tried := tried ++ [r.1 ++ [name]], discovered := [r.1 ++ [name]] }
      else loadLoop env name fuel r.2 (tried ++ [r.1 ++ [name]])

/-- `ModuleLoader::load(parac_module_type)`; twelve rounds are enough for the
loop to end. -/
def load (env : Env) (type : parac_module_type) : Option LoadResult :=
  loadLoop env ("parac_" ++ parac_module_type_to_str type) 12 { type := type } []

/-- The search order as the specification lists it: the directories in which
the library of a module is looked for, the empty path last. -/
def candidates (cwd progdir : Path) (type : String) : List Path :=
  [cwd, cwd ++ [type], cwd ++ ["modules", type],
   progdir, progdir ++ [type], progdir ++ ["modules", type],
   ["/usr/local/lib/paracooba"], ["/usr/local/lib"], ["/usr/lib/paracooba"], ["/usr/lib"], []]

/-- First match wins: the paths are tried in order, the first one that can be
imported is discovered and nothing after it is tried. -/
def searchPaths (imports : Path → Bool) : List Path → List Path → LoadResult
  | [], tried => { tried := tried, discovered := [] }
  | p :: ps, tried =>
    if imports p then { tried := tried ++ [p], discovered := [p] }
    else searchPaths imports ps (tried ++ [p])

/-- An environment in which only the library in `/usr/lib/paracooba` can be
imported. -/
def installedEnv : Env :=
  { current_path := ["/home/user"]
    program_location := ["/usr/bin", "paracooba"]
    imports := fun p => decide (p = ["/usr/lib/paracooba", "parac_solver"]) }

end paracooba

/-!
# The thread registry of the common module

A shallow embedding of `modules/commonc/thread_registry.c`.  The two lists of a
registry are generated by the macro `PARAC_LINKED_LIST`; a list is kept as the
sequence of its entries from `first` along `next`, and its `size` is the
length of that sequence.  Callbacks and thread functions are opaque: an
operation reports which of them it called.
-/

namespace parac.commonc

/-- The values of `parac_status` returned by the registry. -/
inductive parac_status where
  | PARAC_OK
  | PARAC_OUT_OF_MEMORY
  | PARAC_GENERIC_ERROR
  deriving DecidableEq, Repr

/-- The result codes of `thrd_create`. -/
inductive thrd_result where
  | thrd_success
  | thrd_nomem
  | thrd_timedout
  | thrd_busy
  | thrd_error
  deriving DecidableEq, Repr

/-- `parac_thread_registry_handle`; function and module pointers are numbers, a
null pointer is `none`. -/
structure parac_thread_registry_handle where
  stop : Bool
  running : Bool
  thread_id : Nat
  starter : Option Nat
  start_func : Nat
  exit_status : Int := 0
  deriving DecidableEq, Repr

/-- `thread_handle`; `thread` is `none` as long as no `thrd_create` has written
the `thrd_t`. -/
structure thread_handle where
  registry_handle : parac_thread_registry_handle
  thread : Option Nat := none
  deriving DecidableEq, Repr

/-- `parac_thread_registry`: the list of thread handles and the list of
new-thread-starting callbacks, each from `first` along `next`. -/
structure parac_thread_registry where
  threads : List thread_handle := []
  new_thread_starting_cbs : List (Option Nat) := []
  deriving DecidableEq, Repr

/-- What `parac_thread_registry_create` calls, in order: a new-thread-starting
callback on the handle with the given thread id, or `thrd_create` for it. -/
inductive Call where
  | new_thread_starting_cb (cb : Nat) (thread_id : Nat)
  | thrd_create (thread_id : Nat)
  deriving DecidableEq, Repr

/-- What the system contributes to one `parac_thread_registry_create`: whether
the allocation of the list entry succeeds, the result of `thrd_create` and the
`thrd_t` it writes on success. -/
structure CreateEnv where
  allocOk : Bool
  thrd : thrd_result
  thread : Nat
  deriving DecidableEq, Repr

/-- Modelled from the spec: `parac_thread_handle_list_alloc_new`, generated by
`PARAC_LINKED_LIST` (`linked_list.h` is not part of the sources): a new entry
is allocated, linked in as the first entry of the list, and the size of the
list grows by one; `none` when the allocation fails.  The fields of the new
entry are written by the caller. -/
def parac_thread_handle_list_alloc_new (threads : List thread_handle) (allocOk : Bool)
    (entry : thread_handle) : Option (List thread_handle) :=
  if allocOk then some (entry :: threads) else none

/-- The loop of `parac_thread_registry_create` over the callbacks: null entries
are skipped. -/
def callNewThreadStartingCbs (thread_id : Nat) : List (Option Nat) → List Call
  | [] => []
  | some cb :: cbs =>
    Call.new_thread_starting_cb cb thread_id :: callNewThreadStartingCbs thread_id cbs
  | none :: cbs => callNewThreadStartingCbs thread_id cbs

/-- `parac_thread_registry_create`: the status, the registry afterwards, what
is written to `*out_handle` (the thread id of the handle) and the calls
made. -/
def parac_thread_registry_create (registry : parac_thread_registry) (starter : Option Nat)
    (start_func : Nat) (out_handle : Bool) (env : CreateEnv) :
    parac_status × parac_thread_registry × Option Nat × List Call :=
  let handle : parac_thread_registry_handle :=
    { stop := false
      running := false
      thread_id := registry.threads.length + 1
      starter := starter
      start_func := start_func }
  match parac_thread_handle_list_alloc_new registry.threads env.allocOk
      { registry_handle := handle } with
  | none => (parac_status.PARAC_OUT_OF_MEMORY, registry, none, [])
  | some threads =>
    let calls := callNewThreadStartingCbs handle.thread_id registry.new_thread_starting_cbs
      ++ [Call.thrd_create handle.thread_id]
    if env.thrd = thrd_result.thrd_success then
      (parac_status.PARAC_OK,
       { registry with threads :=
          { registry_handle := handle, thread := some env.thread } :: threads.tail },
       if out_handle then some handle.thread_id else none,
       calls)
    else if env.thrd = thrd_result.thrd_nomem then
      (parac_status.PARAC_OUT_OF_MEMORY, { registry with threads := threads }, none, calls)
    else
      (parac_status.PARAC_GENERIC_ERROR, { registry with threads := threads }, none, calls)

/-- `parac_thread_registry_stop`. -/
def parac_thread_registry_stop (registry : parac_thread_registry) : parac_thread_registry :=
  { registry with threads := registry.threads.map (fun handle =>
      { handle with registry_handle := { handle.registry_handle with stop := true } }) }

/-- `parac_thread_registry_wait_for_exit`: the `thrd_t` of every entry is joined
in list order (`none` is a `thrd_t` that no `thrd_create` has written) and the
exit status the join reports is stored in the handle. -/
def parac_thread_registry_wait_for_exit (registry : parac_thread_registry)
    (join : Option Nat → Int) : parac_thread_registry × List (Option Nat) :=
  ({ registry with threads := registry.threads.map (fun handle =>
      { handle with registry_handle :=
          { handle.registry_handle with exit_status := join handle.thread } }) },
   registry.threads.map (fun handle => handle.thread))

/-- A registry with one running thread and two callbacks around a null
entry. -/
def oneThreadRegistry : parac_thread_registry :=
  { threads := [⟨⟨false, true, 1, none, 11, 0⟩, some 100⟩]
    new_thread_starting_cbs := [some 21, none, some 22] }

end parac.commonc

namespace parac.solver

/-! ## Properties of the cube table -/

theorem jumplistLoop_cube (c : List Literal) (h0 : (0 : Literal) ∉ c) (rest : List Literal)
    (i ls : Nat) (jl : List Nat) :
    jumplistLoop (c ++ 0 :: rest) i ls jl
      = jumplistLoop rest (i + c.length + 1) (i + c.length + 1) (jl ++ [ls]) := by
  induction c generalizing i with
  | nil => simp [jumplistLoop]
  | cons a c ih =>
    have ha : a ≠ 0 := fun e => h0 (by simp [e])
    have hc : (0 : Literal) ∉ c := fun e => h0 (by simp [e])
    have e : (a :: c) ++ 0 :: rest = a :: (c ++ 0 :: rest) := rfl
    rw [e, jumplistLoop, if_neg ha, ih hc, List.length_cons]
    have e2 : i + 1 + c.length + 1 = i + (c.length + 1) + 1 := by omega
    rw [e2]

theorem jumplistLoop_layout (cs : List Cube) (hz : ∀ c ∈ cs, (0 : Literal) ∉ c)
    (i : Nat) (jl : List Nat) :
    jumplistLoop (cubeLayout cs) i i jl
      = (jl ++ cubeStarts i cs, i + (cubeLayout cs).length) := by
  induction cs generalizing i jl with
  | nil => simp [cubeLayout, cubeStarts, jumplistLoop]
  | cons c cs ih =>
    have hc : (0 : Literal) ∉ c := hz c (by simp)
    have hcs : ∀ d ∈ cs, (0 : Literal) ∉ d := fun d hd => hz d (by simp [hd])
    simp only [cubeLayout, cubeStarts]
    rw [jumplistLoop_cube c hc, ih hcs]
    simp only [List.append_assoc, List.singleton_append, List.length_append, List.length_cons]
    congr 1
    omega

theorem cubeStarts_length (cs : List Cube) (i : Nat) : (cubeStarts i cs).length = cs.length := by
  induction cs generalizing i with
  | nil => rfl
  | cons c cs ih => simp [cubeStarts, ih]

theorem cubeRange_layout (cs : List Cube) (i k : Nat) (hk : k < cs.length)
    (pre : List Literal) (hpre : pre.length = i) :
    ∃ b e, (cubeStarts i cs ++ [i + (cubeLayout cs).length])[k]? = some b ∧
      (cubeStarts i cs ++ [i + (cubeLayout cs).length])[k + 1]? = some e ∧
      cubeRange (pre ++ cubeLayout cs) b e = some (cs.get ⟨k, hk⟩) := by
  induction cs generalizing i k pre with
  | nil => simp at hk
  | cons c cs ih =>
    cases k with
    | zero =>
      refine ⟨i, i + c.length + 1, by simp [cubeStarts], ?_, ?_⟩
      · cases cs with
        | nil => simp [cubeStarts, cubeLayout]; omega
        | cons d ds => simp [cubeStarts]
      · subst hpre
        simp [cubeRange, cubeLayout, List.take_append_eq_append_take]
        omega
    | succ k =>
      have hk2 : k < cs.length := by simpa using hk
      obtain ⟨b, e, hb, he, hr⟩ :=
        ih (i + c.length + 1) k hk2 (pre ++ c ++ [0]) (by simp [hpre]; omega)
      refine ⟨b, e, ?_, ?_, ?_⟩
      · simpa [cubeStarts, cubeLayout, Nat.add_assoc, Nat.add_comm, Nat.add_left_comm] using hb
      · simpa [cubeStarts, cubeLayout, Nat.add_assoc, Nat.add_comm, Nat.add_left_comm] using he
      · simpa [cubeLayout] using hr

theorem appendCubes_eq (store : List Literal) (cs : List Cube) :
    appendCubes store cs = store ++ cubeLayout cs := by
  induction cs generalizing store with
  | nil => simp [appendCubes, cubeLayout]
  | cons c cs ih =>
    have e : appendCubes store (c :: cs) = appendCubes (store ++ c ++ [0]) cs := rfl
    rw [e, ih]
    simp [cubeLayout]

/-- What `generateJumplist` leaves behind when the store is the layout of the
cubes `cs`. -/
theorem generateJumplist_layout (ceilLog2f : Nat → Nat) (heap : Heap) (h : CaDiCaLHandle)
    (cs : List Cube) (hz : ∀ c ∈ cs, (0 : Literal) ∉ c)
    (hstore : heap.cubesAt h.m_internal.pregeneratedCubes = cubeLayout cs) :
    (h.generateJumplist ceilLog2f heap).2.m_internal.pregeneratedCubesCount = cs.length ∧
    (h.generateJumplist ceilLog2f heap).2.m_internal.normalizedPathLength
      = ceilLog2f (floatOfSizeT cs.length) ∧
    (h.generateJumplist ceilLog2f heap).2.m_internal.pregeneratedCubes
      = h.m_internal.pregeneratedCubes ∧
    (h.generateJumplist ceilLog2f heap).2.m_internal.pregeneratedCubesJumplist
      = h.m_internal.pregeneratedCubesJumplist ∧
    (h.generateJumplist ceilLog2f heap).1.cubesAt h.m_internal.pregeneratedCubes
      = cubeLayout cs ∧
    (h.generateJumplist ceilLog2f heap).1.jumplistAt h.m_internal.pregeneratedCubesJumplist
      = cubeStarts 0 cs ++ [0 + (cubeLayout cs).length] := by
  have hl := jumplistLoop_layout cs hz 0 []
  have hs : heap.cubes h.m_internal.pregeneratedCubes = cubeLayout cs := hstore
  simp [CaDiCaLHandle.generateJumplist, Heap.cubesAt, Heap.jumplistAt, Heap.setJumplist, hs, hl,
    cubeStarts_length]

/-- Reading cube `i` back after `generateJumplist`. -/
theorem getCubeFromId_layout (ceilLog2f : Nat → Nat) (heap : Heap) (h : CaDiCaLHandle)
    (cs : List Cube) (hz : ∀ c ∈ cs, (0 : Literal) ∉ c)
    (hstore : heap.cubesAt h.m_internal.pregeneratedCubes = cubeLayout cs) (i : Nat) :
    (h.generateJumplist ceilLog2f heap).2.getCubeFromId (h.generateJumplist ceilLog2f heap).1 i
      = if hi : i < cs.length then some (cs.get ⟨i, hi⟩) else some [] := by
  obtain ⟨hcount, -, hca, hja, hcubes, hjl⟩ := generateJumplist_layout ceilLog2f heap h cs hz hstore
  unfold CaDiCaLHandle.getCubeFromId
  rw [hcount, hca, hja, hcubes, hjl]
  by_cases hi : i < cs.length
  · obtain ⟨b, e, hb, he, hr⟩ := cubeRange_layout cs 0 i hi [] rfl
    rw [if_neg (by omega), hb, he, dif_pos hi]
    simpa using hr
  · rw [if_pos (by omega), dif_neg hi]

/-! ## The claims -/

/-- C1. Cube table round trip: when the flat cube store is the layout
`c_0 ++ [0] ++ ... ++ c_{n-1} ++ [0]` of cubes that do not contain the literal
`0` (the layout the copy loop of `lookahead` writes), then after
`generateJumplist` the cube count is `n` and `getCubeFromId i` is exactly
`c_i` for every `i < n`. -/
theorem generateJumplist_getCubeFromId_roundtrip (ceilLog2f : Nat → Nat) (heap : Heap)
    (h : CaDiCaLHandle) (cs : List Cube) (hz : ∀ c ∈ cs, (0 : Literal) ∉ c)
    (hstore : heap.cubesAt h.m_internal.pregeneratedCubes = cubeLayout cs) :
    appendCubes [] cs = cubeLayout cs ∧
    (h.generateJumplist ceilLog2f heap).2.getPregeneratedCubesCount = cs.length ∧
    ∀ (i : Nat) (hi : i < cs.length),
      (h.generateJumplist ceilLog2f heap).2.getCubeFromId
        (h.generateJumplist ceilLog2f heap).1 i = some (cs.get ⟨i, hi⟩) := by
  refine ⟨by simp [appendCubes_eq], ?_, ?_⟩
  · exact (generateJumplist_layout ceilLog2f heap h cs hz hstore).1
  · intro i hi
    rw [getCubeFromId_layout ceilLog2f heap h cs hz hstore i, dif_pos hi]

/-- Witness for C1 with the cubes `[1, -2]` and `[3]`. -/
theorem generateJumplist_getCubeFromId_roundtrip_witness :
    (∀ c ∈ [[1, -2], [3]], (0 : Literal) ∉ c) ∧
    (heapWithStore [1, -2, 0, 3, 0]).cubesAt freshHandle.m_internal.pregeneratedCubes
      = cubeLayout [[1, -2], [3]] ∧
    (freshHandle.generateJumplist exactCeilLog2
      (heapWithStore [1, -2, 0, 3, 0])).2.getPregeneratedCubesCount = 2 :=
  ⟨by decide, by decide,
   (generateJumplist_getCubeFromId_roundtrip exactCeilLog2 (heapWithStore [1, -2, 0, 3, 0])
      freshHandle [[1, -2], [3]] (by decide) (by decide)).2.1⟩

theorem cubeLayout_replicate_zero_free (n : Nat) :
    ∀ c ∈ List.replicate n ([1] : Cube), (0 : Literal) ∉ c := by
  intro c hc
  rw [List.eq_of_mem_replicate hc]
  decide

theorem pathLength_of_replicate (ceilLog2f : Nat → Nat) (n : Nat) :
    (freshHandle.generateJumplist ceilLog2f
      (heapWithStore (cubeLayout (List.replicate n [1])))).2.getNormalizedPathLength
      = ceilLog2f (floatOfSizeT n) := by
  have h := (generateJumplist_layout ceilLog2f
    (heapWithStore (cubeLayout (List.replicate n [1]))) freshHandle (List.replicate n [1])
    (cubeLayout_replicate_zero_free n) rfl).2.1
  rw [List.length_replicate] at h
  exact h

/-- C2. `generateJumplist` computes the path length in single precision: the
cube counts `16777216 = 2 ^ 24` and `16777217` are converted to the same
`float`, so whatever `log2f` returns, a store of `16777217` cubes gets the path
length of a store of `16777216` cubes, and the path length cannot be the least
`L` with `N ≤ 2 ^ L` for both; with an exact `log2f` it is `24` for `16777217`
cubes, and `16777217 > 2 ^ 24`. -/
theorem generateJumplist_pathLength_single_precision (ceilLog2f : Nat → Nat) :
    (freshHandle.generateJumplist ceilLog2f
        (heapWithStore (cubeLayout (List.replicate 16777217 [1])))).2.getNormalizedPathLength
      = (freshHandle.generateJumplist ceilLog2f
        (heapWithStore (cubeLayout (List.replicate 16777216 [1])))).2.getNormalizedPathLength ∧
    ¬ (IsLeast {L | 16777216 ≤ 2 ^ L}
        (freshHandle.generateJumplist ceilLog2f
          (heapWithStore (cubeLayout (List.replicate 16777216 [1])))).2.getNormalizedPathLength ∧
       IsLeast {L | 16777217 ≤ 2 ^ L}
        (freshHandle.generateJumplist ceilLog2f
          (heapWithStore (cubeLayout (List.replicate 16777217 [1])))).2.getNormalizedPathLength) ∧
    (freshHandle.generateJumplist exactCeilLog2
        (heapWithStore (cubeLayout (List.replicate 16777217 [1])))).2.getNormalizedPathLength
      = 24 ∧
    ¬ (16777217 ≤ 2 ^ 24) := by
  have e1 : floatOfSizeT 16777217 = 16777216 := by decide
  have e2 : floatOfSizeT 16777216 = 16777216 := by decide
  have e3 : exactCeilLog2 16777216 = 24 := by decide
  rw [pathLength_of_replicate, pathLength_of_replicate, pathLength_of_replicate, e1, e2, e3]
  refine ⟨rfl, ?_, rfl, by norm_num⟩
  rintro ⟨⟨-, hlow⟩, hmem, -⟩
  have h24 : ceilLog2f 16777216 ≤ 24 := hlow (show 16777216 ≤ 2 ^ 24 by norm_num)
  have hpow : 2 ^ ceilLog2f 16777216 ≤ 2 ^ 24 := Nat.pow_le_pow_right (by norm_num) h24
  have hmem2 : 16777217 ≤ 2 ^ ceilLog2f 16777216 := hmem
  have : (2 : Nat) ^ 24 = 16777216 := by norm_num
  omega

/-- C3. `getCubeFromPath p` is the empty cube when the length of `p` differs
from the normalized path length and `getCubeFromId (depth_shifted p)`
otherwise; `getCubeFromId` is the empty cube for an id at or above the cube
count `N` and, on a table built by `generateJumplist` from the cubes `cs`, the
cube `cs[depth_shifted p]` for an id below `N`. -/
theorem getCubeFromPath_spec (heap : Heap) (h : CaDiCaLHandle) (p : parac_path) :
    (parac_path_length p ≠ h.getNormalizedPathLength →
      h.getCubeFromPath heap p = some []) ∧
    (parac_path_length p = h.getNormalizedPathLength →
      h.getCubeFromPath heap p = h.getCubeFromId heap (parac_path_get_depth_shifted p)) ∧
    (h.getPregeneratedCubesCount ≤ parac_path_get_depth_shifted p →
      h.getCubeFromId heap (parac_path_get_depth_shifted p) = some []) ∧
    (∀ (ceilLog2f : Nat → Nat) (heap0 : Heap) (h0 : CaDiCaLHandle) (cs : List Cube),
      (∀ c ∈ cs, (0 : Literal) ∉ c) →
      heap0.cubesAt h0.m_internal.pregeneratedCubes = cubeLayout cs →
      heap = (h0.generateJumplist ceilLog2f heap0).1 →
      h = (h0.generateJumplist ceilLog2f heap0).2 →
      parac_path_get_depth_shifted p < h.getPregeneratedCubesCount →
      h.getCubeFromId heap (parac_path_get_depth_shifted p)
        = cs[parac_path_get_depth_shifted p]?) := by
  refine ⟨?_, ?_, ?_, ?_⟩
  · intro hne
    have hne2 : parac_path_length p ≠ h.m_internal.normalizedPathLength := hne
    simp [CaDiCaLHandle.getCubeFromPath, hne2]
  · intro heq
    have heq2 : parac_path_length p = h.m_internal.normalizedPathLength := heq
    simp [CaDiCaLHandle.getCubeFromPath, heq2]
  · intro hge
    have hge2 : h.m_internal.pregeneratedCubesCount ≤ parac_path_get_depth_shifted p := hge
    simp [CaDiCaLHandle.getCubeFromId, hge2]
  · intro ceilLog2f heap0 h0 cs hz hstore hheap hh hlt
    subst hheap hh
    have hcount : (h0.generateJumplist ceilLog2f heap0).2.getPregeneratedCubesCount = cs.length :=
      (generateJumplist_layout ceilLog2f heap0 h0 cs hz hstore).1
    rw [hcount] at hlt
    rw [getCubeFromId_layout ceilLog2f heap0 h0 cs hz hstore, dif_pos hlt,
      List.getElem?_eq_getElem hlt]
    rfl

/-- Witness for C3: on the table of the cubes `[1, -2]`, `[3]` (path length
`1`) the path `1` of length `1` selects `[3]`. -/
theorem getCubeFromPath_spec_witness :
    (freshHandle.generateJumplist exactCeilLog2
        (heapWithStore [1, -2, 0, 3, 0])).2.getCubeFromPath
      (freshHandle.generateJumplist exactCeilLog2 (heapWithStore [1, -2, 0, 3, 0])).1
      { length := 1, path := 2 ^ 57 } = some [3] ∧
    (freshHandle.generateJumplist exactCeilLog2
        (heapWithStore [1, -2, 0, 3, 0])).2.getCubeFromId
      (freshHandle.generateJumplist exactCeilLog2 (heapWithStore [1, -2, 0, 3, 0])).1
      (parac_path_get_depth_shifted { length := 1, path := 2 ^ 57 })
      = [[1, -2], [3]][parac_path_get_depth_shifted { length := 1, path := 2 ^ 57 }]? :=
  ⟨by decide,
   (getCubeFromPath_spec
      (freshHandle.generateJumplist exactCeilLog2 (heapWithStore [1, -2, 0, 3, 0])).1
      (freshHandle.generateJumplist exactCeilLog2 (heapWithStore [1, -2, 0, 3, 0])).2
      { length := 1, path := 2 ^ 57 }).2.2.2 exactCeilLog2 (heapWithStore [1, -2, 0, 3, 0])
      freshHandle [[1, -2], [3]] (by decide) (by decide) rfl rfl (by decide)⟩

/-- C4. The status returned by the embedded engine's `solve()` is a total
mapping of the CaDiCaL return code: SAT exactly for `10`, UNSAT exactly for
`20`, Aborted exactly for `0`, Unknown exactly for every other code. -/
theorem Internal_solve_status_of_code (s : Internal) (out : SolveOutcome) :
    ((s.solve out).1 = parac_status.PARAC_SAT ↔ out.r = 10) ∧
    ((s.solve out).1 = parac_status.PARAC_UNSAT ↔ out.r = 20) ∧
    ((s.solve out).1 = parac_status.PARAC_ABORTED ↔ out.r = 0) ∧
    ((s.solve out).1 = parac_status.PARAC_UNKNOWN ↔ (out.r ≠ 10 ∧ out.r ≠ 20 ∧ out.r ≠ 0)) := by
  unfold Internal.solve
  by_cases h0 : out.r = 0
  · simp [h0]
  · by_cases h10 : out.r = 10
    · simp [h10]
    · by_cases h20 : out.r = 20
      · simp [h20]
      · simp [h0, h10, h20]

/-! ### Frame of the operations -/

theorem perform_resplitCube (ceilLog2f : Nat → Nat) (heap : Heap) (h : CaDiCaLHandle)
    (p : parac_path) (C : Cube) (cfg : SolverConfig) (flags0 flags1 : Flags)
    (run : GenerateCubesRun) :
    h.perform ceilLog2f heap (Op.resplitCube p C cfg flags0 flags1 run)
      = (heap, ((h.resplitCube p C cfg flags0 flags1 run).map Prod.snd).getD h) := by
  show (match h.resplitCube p C cfg flags0 flags1 run with
        | some r => (heap, r.2)
        | none => (heap, h)) = _
  cases h.resplitCube p C cfg flags0 flags1 run <;> rfl

theorem perform_heap_of_not_writes (ceilLog2f : Nat → Nat) (heap : Heap) (h : CaDiCaLHandle)
    (op : Op) (hop : op.writesCubeTable = false) : (h.perform ceilLog2f heap op).1 = heap := by
  cases op with
  | resplitCube p currentCube cfg flags0 flags1 run => rw [perform_resplitCube]
  | parseFile path rd => simp [Op.writesCubeTable] at hop
  | generateJumplist => simp [Op.writesCubeTable] at hop
  | lookahead depth min_depth run => simp [Op.writesCubeTable] at hop
  | _ => rfl

theorem World.perform_handles_ne (ceilLog2f : Nat → Nat) (w : World) (i j : Nat) (op : Op)
    (hij : i ≠ j) : (w.perform ceilLog2f j op).handles[i]? = w.handles[i]? := by
  unfold World.perform
  cases w.handles[j]? with
  | none => rfl
  | some c => simp [List.getElem?_set_ne (Ne.symm hij)]

theorem World.perform_heap_frame (ceilLog2f : Nat → Nat) (w : World) (j : Nat) (op : Op)
    (hop : op.writesCubeTable = false) : (w.perform ceilLog2f j op).heap = w.heap := by
  unfold World.perform
  cases w.handles[j]? with
  | none => rfl
  | some c => exact parac.solver.perform_heap_of_not_writes ceilLog2f w.heap c op hop

theorem World.performAll_handles_ne (ceilLog2f : Nat → Nat) (w : World) (i j : Nat)
    (ops : List Op) (hij : i ≠ j) :
    (w.performAll ceilLog2f j ops).handles[i]? = w.handles[i]? := by
  induction ops generalizing w with
  | nil => rfl
  | cons op ops ih =>
    show ((w.perform ceilLog2f j op).performAll ceilLog2f j ops).handles[i]? = _
    rw [ih, World.perform_handles_ne ceilLog2f w i j op hij]

theorem World.performAll_heap_frame (ceilLog2f : Nat → Nat) (w : World) (j : Nat)
    (ops : List Op) (hops : ∀ op ∈ ops, op.writesCubeTable = false) :
    (w.performAll ceilLog2f j ops).heap = w.heap := by
  induction ops generalizing w with
  | nil => rfl
  | cons op ops ih =>
    show ((w.perform ceilLog2f j op).performAll ceilLog2f j ops).heap = _
    rw [ih _ (fun o ho => hops o (by simp [ho])),
      World.perform_heap_frame ceilLog2f w j op (hops op (by simp))]

theorem World.clone_spec (w : World) (i : Nat) (cfg : SolverConfig) (h : CaDiCaLHandle)
    (hi : w.handles[i]? = some h) :
    (w.clone i cfg).heap = w.heap ∧ (w.clone i cfg).handles = w.handles ++ [h.clone cfg] := by
  unfold World.clone
  rw [hi]
  exact ⟨rfl, rfl⟩

/-- C5, the counterexample. The handle of `twoCubeWorld` holds the cubes `[1]`
and `[2]`; after it is cloned and the clone (handle `1`) runs `lookahead`,
which yields the single cube `[3]`, the parent (handle `0`, itself untouched)
returns `[3]` as its cube `0` and its cube `1` is read outside the jumplist. -/
theorem clone_lookahead_changes_parent_cubes :
    twoCubeWorld.handles[0]? = some twoCubeParent ∧
    (((twoCubeWorld.clone 0 plainConfig).perform exactCeilLog2 1
        (Op.lookahead 1 1 oneCubeRun)).handles[0]? = some twoCubeParent) ∧
    twoCubeParent.getCubeFromId twoCubeWorld.heap 0 = some [1] ∧
    twoCubeParent.getCubeFromId
      ((twoCubeWorld.clone 0 plainConfig).perform exactCeilLog2 1
        (Op.lookahead 1 1 oneCubeRun)).heap 0 = some [3] ∧
    twoCubeParent.getCubeFromId
      ((twoCubeWorld.clone 0 plainConfig).perform exactCeilLog2 1
        (Op.lookahead 1 1 oneCubeRun)).heap 1 = none := by
  refine ⟨rfl, ?_, ?_, ?_, ?_⟩ <;> decide

/-- C5, amended. A clone shares the cube store and the jumplist of its parent.
No sequence of operations on the clone changes the parent handle itself (its
cube count and normalized path length), and as long as none of the operations
is one of those that write the shared cube table (`parseFile`, `lookahead`,
`generateJumplist`), every cube that the parent's `getCubeFromId` and
`getCubeFromPath` return is unchanged. -/
theorem clone_operations_frame (ceilLog2f : Nat → Nat) (w : World) (i : Nat)
    (cfg : SolverConfig) (h : CaDiCaLHandle) (ops : List Op)
    (hi : w.handles[i]? = some h) :
    ((w.clone i cfg).performAll ceilLog2f w.handles.length ops).handles[i]? = some h ∧
    ((∀ op ∈ ops, op.writesCubeTable = false) →
      (∀ id, h.getCubeFromId
          ((w.clone i cfg).performAll ceilLog2f w.handles.length ops).heap id
        = h.getCubeFromId w.heap id) ∧
      (∀ p, h.getCubeFromPath
          ((w.clone i cfg).performAll ceilLog2f w.handles.length ops).heap p
        = h.getCubeFromPath w.heap p)) := by
  obtain ⟨hheap, hhandles⟩ := World.clone_spec w i cfg h hi
  have hlt : i < w.handles.length := by
    rcases Nat.lt_or_ge i w.handles.length with hlt | hge
    · exact hlt
    · rw [List.getElem?_eq_none hge] at hi
      cases hi
  constructor
  · rw [World.performAll_handles_ne ceilLog2f _ i _ ops (by omega), hhandles,
      List.getElem?_append_left hlt, hi]
  · intro hops
    rw [World.performAll_heap_frame ceilLog2f _ _ ops hops, hheap]
    exact ⟨fun _ => rfl, fun _ => rfl⟩

/-- Witness for C5 (amended): the clone of `twoCubeWorld` splits and solves. -/
theorem clone_operations_frame_witness :
    twoCubeWorld.handles[0]? = some twoCubeParent ∧
    (∀ op ∈ [Op.resplitOnce rootPath [] ⟨0, [[1]]⟩ State.UNKNOWN,
        Op.solve ⟨1⟩ noFlags satOutcome, Op.takeSolverAssignment],
      op.writesCubeTable = false) ∧
    (∀ id, twoCubeParent.getCubeFromId
        ((twoCubeWorld.clone 0 plainConfig).performAll exactCeilLog2 twoCubeWorld.handles.length
          [Op.resplitOnce rootPath [] ⟨0, [[1]]⟩ State.UNKNOWN,
            Op.solve ⟨1⟩ noFlags satOutcome, Op.takeSolverAssignment]).heap id
      = twoCubeParent.getCubeFromId twoCubeWorld.heap id) :=
  ⟨rfl, by simp [Op.writesCubeTable],
   ((clone_operations_frame exactCeilLog2 twoCubeWorld 0 plainConfig twoCubeParent
      [Op.resplitOnce rootPath [] ⟨0, [[1]]⟩ State.UNKNOWN,
        Op.solve ⟨1⟩ noFlags satOutcome, Op.takeSolverAssignment] rfl).2
      (by simp [Op.writesCubeTable])).1⟩

/-! ### Splitting -/

theorem statusWithoutSplit_ne_splitted (st : State) :
    statusWithoutSplit st ≠ parac_status.PARAC_SPLITTED := by
  unfold statusWithoutSplit
  split_ifs <;> decide

/-- C6. Whenever `resplitOnce(path, C)` returns Splitted, it returns the pair
`(C ++ [l], C ++ [-l])` for a non-zero literal `l` (the last literal of the
first generated cube): each child is the parent cube extended by one literal
and the two differ only in the sign of that literal. -/
theorem resplitOnce_splitted_children (h : CaDiCaLHandle) (path : parac_path) (C : Cube)
    (cubesWithStatus : CubesWithStatus) (st : State)
    (hs : (h.resplitOnce path C cubesWithStatus st).1.1 = parac_status.PARAC_SPLITTED) :
    lastLiteralOfFirstCube cubesWithStatus ≠ 0 ∧
    (h.resplitOnce path C cubesWithStatus st).1.2
      = some (C ++ [lastLiteralOfFirstCube cubesWithStatus],
              C ++ [-lastLiteralOfFirstCube cubesWithStatus]) := by
  unfold CaDiCaLHandle.resplitOnce at hs ⊢
  by_cases hl : lastLiteralOfFirstCube cubesWithStatus = 0
  · simp only [hl, if_true] at hs
    exact absurd hs (statusWithoutSplit_ne_splitted _)
  · simp only [hl, if_false]
    exact ⟨hl, trivial⟩

/-- Witness for C6: the empty parent cube split on the literal `1` gives the
children `[1]` and `[-1]`. -/
theorem resplitOnce_splitted_children_witness :
    (freshHandle.resplitOnce rootPath [] ⟨0, [[1]]⟩ State.UNKNOWN).1.1
      = parac_status.PARAC_SPLITTED ∧
    (freshHandle.resplitOnce rootPath [] ⟨0, [[1]]⟩ State.UNKNOWN).1.2
      = some ([] ++ [lastLiteralOfFirstCube ⟨0, [[1]]⟩],
              [] ++ [-lastLiteralOfFirstCube ⟨0, [[1]]⟩]) ∧
    (freshHandle.resplitOnce rootPath [] ⟨0, [[1]]⟩ State.UNKNOWN).1.2 = some ([1], [-1]) :=
  ⟨by decide,
   (resplitOnce_splitted_children freshHandle rootPath [] ⟨0, [[1]]⟩ State.UNKNOWN
      (by decide)).2,
   by decide⟩

theorem generateCubesUnderTimeout_state (h : CaDiCaLHandle) (run : GenerateCubesRun) :
    (h.generateCubesUnderTimeout run).m_internal.solver.state = run.state := by
  unfold CaDiCaLHandle.generateCubesUnderTimeout
  split_ifs <;> rfl

/-- C9. Cooperative cancellation: if the stop flag of the task or the global
stop flag is set when `solve(task)` is called, `solve(task)` returns Aborted
and the engine is left as it was (its `solve` is not entered and no assignment
is stored); and on every return path the terminator's pointer to the stop flag
of the task is null again. -/
theorem solve_cooperative_cancellation (h : CaDiCaLHandle) (task : parac_task) (flags : Flags)
    (out : SolveOutcome) :
    (h.solve task flags out).2.m_internal.terminator.terminated = none ∧
    ((flags task.stop = true ∨ readFlag flags h.m_internal.terminator.stop = true) →
      (h.solve task flags out).1 = parac_status.PARAC_ABORTED ∧
      (h.solve task flags out).2.m_internal.solver = h.m_internal.solver ∧
      (h.solve task flags out).2.m_internal.solver.solveCalls = h.m_internal.solver.solveCalls ∧
      (h.solve task flags out).2.m_internal.m_solverAssignment
        = h.m_internal.m_solverAssignment) := by
  constructor
  · unfold CaDiCaLHandle.solve
    dsimp only
    split_ifs <;> rfl
  · intro hstop
    have hb : (CaDiCaLTerminator.terminateLocally
        (h.m_internal.terminator.setTerminatedPointer (some task.stop)) false).toBool flags
        = true := by
      simp only [CaDiCaLTerminator.toBool, CaDiCaLTerminator.terminateLocally,
        CaDiCaLTerminator.setTerminatedPointer, readFlag, Bool.or_eq_true]
      rcases hstop with hs | hs
      · exact Or.inr hs
      · exact Or.inl hs
    unfold CaDiCaLHandle.solve
    dsimp only
    rw [if_pos hb]
    exact ⟨rfl, rfl, rfl, rfl⟩

/-- Witness for C9: the stop flag of the task (address `1`) is set. -/
theorem solve_cooperative_cancellation_witness :
    (flagOneSet (parac_task.mk 1).stop = true ∨
      readFlag flagOneSet freshHandle.m_internal.terminator.stop = true) ∧
    (freshHandle.solve ⟨1⟩ flagOneSet satOutcome).1 = parac_status.PARAC_ABORTED ∧
    (freshHandle.solve ⟨1⟩ flagOneSet satOutcome).2.m_internal.solver
      = freshHandle.m_internal.solver :=
  ⟨Or.inl (by decide),
   ((solve_cooperative_cancellation freshHandle ⟨1⟩ flagOneSet satOutcome).2
      (Or.inl (by decide))).1,
   ((solve_cooperative_cancellation freshHandle ⟨1⟩ flagOneSet satOutcome).2
      (Or.inl (by decide))).2.1⟩

theorem solve_assignment_some (h : CaDiCaLHandle) (task : parac_task) (flags : Flags)
    (out : SolveOutcome)
    (hsome : (h.solve task flags out).2.m_internal.m_solverAssignment ≠ none) :
    h.m_internal.m_solverAssignment ≠ none ∨
      (h.solve task flags out).1 = parac_status.PARAC_SAT := by
  unfold CaDiCaLHandle.solve at hsome ⊢
  unfold Internal.solve at hsome ⊢
  by_cases hn : h.m_internal.m_solverAssignment = none
  · right
    cases hc : h.m_solverConfig <;> simp only [hc] at hsome ⊢ <;>
      split_ifs at hsome ⊢ <;> first | rfl | exact absurd hn hsome
  · exact Or.inl hn

/-- C10, the counterexample. A handle solves twice, the first call returns SAT
and the second UNSAT; `takeSolverAssignment()` then still yields the assignment
of the first call although the most recent `solve()` returned UNSAT. -/
theorem takeSolverAssignment_after_unsat :
    (freshHandle.solveAll [(⟨1⟩, noFlags, satOutcome), (⟨1⟩, noFlags, unsatOutcome)]).1
      = [parac_status.PARAC_SAT, parac_status.PARAC_UNSAT] ∧
    (freshHandle.solveAll
      [(⟨1⟩, noFlags, satOutcome), (⟨1⟩, noFlags, unsatOutcome)]).2.takeSolverAssignment.1
      ≠ none := by
  decide

/-- C10, amended. On a handle that holds no assignment (a new handle, a clone,
or a handle whose assignment was taken), after every sequence of `solve()`
calls `takeSolverAssignment()` yields a non-null assignment only if one of
these calls returned SAT; and a second `takeSolverAssignment()` yields
null. -/
theorem takeSolverAssignment_some_only_after_sat (h : CaDiCaLHandle)
    (calls : List (parac_task × Flags × SolveOutcome))
    (hnone : h.m_internal.m_solverAssignment = none)
    (hsome : (h.solveAll calls).2.takeSolverAssignment.1 ≠ none) :
    parac_status.PARAC_SAT ∈ (h.solveAll calls).1 ∧
    (h.solveAll calls).2.takeSolverAssignment.2.takeSolverAssignment.1 = none := by
  refine ⟨?_, rfl⟩
  induction calls generalizing h with
  | nil => exact absurd hnone hsome
  | cons c calls ih =>
    obtain ⟨task, flags, out⟩ := c
    have e : (h.solveAll ((task, flags, out) :: calls))
        = ((h.solve task flags out).1 :: ((h.solve task flags out).2.solveAll calls).1,
           ((h.solve task flags out).2.solveAll calls).2) := rfl
    rw [e] at hsome ⊢
    by_cases hn : (h.solve task flags out).2.m_internal.m_solverAssignment = none
    · exact List.mem_cons_of_mem _ (ih _ hn hsome)
    · rcases solve_assignment_some h task flags out hn with h1 | h1
      · exact absurd hnone h1
      · rw [h1]
        exact List.mem_cons_self _ _

/-- Witness for C10 (amended): a new handle whose only `solve()` returns
SAT. -/
theorem takeSolverAssignment_some_only_after_sat_witness :
    freshHandle.m_internal.m_solverAssignment = none ∧
    (freshHandle.solveAll [(⟨1⟩, noFlags, satOutcome)]).2.takeSolverAssignment.1 ≠ none ∧
    parac_status.PARAC_SAT ∈ (freshHandle.solveAll [(⟨1⟩, noFlags, satOutcome)]).1 :=
  ⟨rfl, by decide,
   (takeSolverAssignment_some_only_after_sat freshHandle [(⟨1⟩, noFlags, satOutcome)] rfl
      (by decide)).1⟩

/-! ### Parsing, termination and the temporary file -/

/-- C11, the counterexample. A first `parseFile` fails after the reader has
appended the cube `1 0` to the store and a second one on the same handle
succeeds on a file without cubes: the second call builds the jumplist (the cube
count goes from `0` to `1`) although it read no cube literal.  And after a
successful `parseFile` a failing one returns ParseError on a handle that is
marked as holding a formula. -/
theorem parseFile_builds_jumplist_without_cube_read :
    (freshHandle.parseFile exactCeilLog2 (heapWithStore []) "a.cnf" failedRead).1
      = parac_status.PARAC_PARSE_ERROR ∧
    (freshHandle.parseFile exactCeilLog2 (heapWithStore []) "a.cnf"
      failedRead).2.2.getPregeneratedCubesCount = 0 ∧
    plainRead.cubes = [] ∧
    ((freshHandle.parseFile exactCeilLog2 (heapWithStore []) "a.cnf" failedRead).2.2.parseFile
      exactCeilLog2
      (freshHandle.parseFile exactCeilLog2 (heapWithStore []) "a.cnf" failedRead).2.1
      "b.cnf" plainRead).1 = parac_status.PARAC_OK ∧
    ((freshHandle.parseFile exactCeilLog2 (heapWithStore []) "a.cnf" failedRead).2.2.parseFile
      exactCeilLog2
      (freshHandle.parseFile exactCeilLog2 (heapWithStore []) "a.cnf" failedRead).2.1
      "b.cnf" plainRead).2.2.getPregeneratedCubesCount = 1 ∧
    ((freshHandle.parseFile exactCeilLog2 (heapWithStore []) "a.cnf" failedRead).2.2.parseFile
      exactCeilLog2
      (freshHandle.parseFile exactCeilLog2 (heapWithStore []) "a.cnf" failedRead).2.1
      "b.cnf" plainRead).2.1.jumplistAt 0 = [0, 2] ∧
    ((freshHandle.parseFile exactCeilLog2 (heapWithStore []) "b.cnf" plainRead).2.2.parseFile
      exactCeilLog2
      (freshHandle.parseFile exactCeilLog2 (heapWithStore []) "b.cnf" plainRead).2.1
      "a.cnf" failedRead).1 = parac_status.PARAC_PARSE_ERROR ∧
    ((freshHandle.parseFile exactCeilLog2 (heapWithStore []) "b.cnf" plainRead).2.2.parseFile
      exactCeilLog2
      (freshHandle.parseFile exactCeilLog2 (heapWithStore []) "b.cnf" plainRead).2.1
      "a.cnf" failedRead).2.2.m_hasFormula = true := by
  decide

/-- `generateJumplist` with the result of its loop spelled out. -/
theorem generateJumplist_eq (ceilLog2f : Nat → Nat) (heap : Heap) (h : CaDiCaLHandle) :
    h.generateJumplist ceilLog2f heap
      = (heap.setJumplist h.m_internal.pregeneratedCubesJumplist
          ((jumplistLoop (heap.cubesAt h.m_internal.pregeneratedCubes) 0 0 []).1
            ++ [(jumplistLoop (heap.cubesAt h.m_internal.pregeneratedCubes) 0 0 []).2]),
         { h with m_internal :=
            { h.m_internal with
              pregeneratedCubesCount :=
                (jumplistLoop (heap.cubesAt h.m_internal.pregeneratedCubes) 0 0 []).1.length
              normalizedPathLength := ceilLog2f (floatOfSizeT
                (jumplistLoop (heap.cubesAt h.m_internal.pregeneratedCubes) 0 0 []).1.length) } }) :=
  rfl

/-- `parseFile` when the reader reports an error. -/
theorem parseFile_error (ceilLog2f : Nat → Nat) (heap : Heap) (h : CaDiCaLHandle)
    (path : String) (rd : DimacsRead) (herr : rd.parseStatus ≠ none) :
    h.parseFile ceilLog2f heap path rd
      = (parac_status.PARAC_PARSE_ERROR,
         heap.setCubes h.m_internal.pregeneratedCubes
           (heap.cubesAt h.m_internal.pregeneratedCubes ++ rd.cubes),
         { h with m_internal :=
            { h.m_internal with
              path := if path = "-" then "/dev/stdin" else path
              vars := rd.vars
              incremental := rd.incremental } }) := by
  unfold CaDiCaLHandle.parseFile
  dsimp only
  rw [if_pos herr]

/-- `parseFile` when the reader reports no error. -/
theorem parseFile_ok (ceilLog2f : Nat → Nat) (heap : Heap) (h : CaDiCaLHandle)
    (path : String) (rd : DimacsRead) (herr : rd.parseStatus = none) :
    h.parseFile ceilLog2f heap path rd
      = (parac_status.PARAC_OK,
         (if ((heap.setCubes h.m_internal.pregeneratedCubes
                (heap.cubesAt h.m_internal.pregeneratedCubes ++ rd.cubes)).cubesAt
                h.m_internal.pregeneratedCubes).length ≠ 0
          then CaDiCaLHandle.generateJumplist ceilLog2f
            (heap.setCubes h.m_internal.pregeneratedCubes
              (heap.cubesAt h.m_internal.pregeneratedCubes ++ rd.cubes))
            { h with m_internal :=
              { h.m_internal with
                path := if path = "-" then "/dev/stdin" else path
                vars := rd.vars
                incremental := rd.incremental } }
          else (heap.setCubes h.m_internal.pregeneratedCubes
              (heap.cubesAt h.m_internal.pregeneratedCubes ++ rd.cubes),
            { h with m_internal :=
              { h.m_internal with
                path := if path = "-" then "/dev/stdin" else path
                vars := rd.vars
                incremental := rd.incremental } })).1,
         { (if ((heap.setCubes h.m_internal.pregeneratedCubes
                (heap.cubesAt h.m_internal.pregeneratedCubes ++ rd.cubes)).cubesAt
                h.m_internal.pregeneratedCubes).length ≠ 0
          then CaDiCaLHandle.generateJumplist ceilLog2f
            (heap.setCubes h.m_internal.pregeneratedCubes
              (heap.cubesAt h.m_internal.pregeneratedCubes ++ rd.cubes))
            { h with m_internal :=
              { h.m_internal with
                path := if path = "-" then "/dev/stdin" else path
                vars := rd.vars
                incremental := rd.incremental } }
          else (heap.setCubes h.m_internal.pregeneratedCubes
              (heap.cubesAt h.m_internal.pregeneratedCubes ++ rd.cubes),
            { h with m_internal :=
              { h.m_internal with
                path := if path = "-" then "/dev/stdin" else path
                vars := rd.vars
                incremental := rd.incremental } })).2 with m_hasFormula := true }) := by
  unfold CaDiCaLHandle.parseFile
  dsimp only
  rw [if_neg (not_not.mpr herr)]

/-- C11, amended. `parseFile` returns ParseError if and only if the DIMACS reader
reports an error; in that case it leaves the formula mark of the handle as it
was and builds no jumplist.  Otherwise it returns OK, marks the handle as
holding a formula, and builds the jumplist exactly when the cube store is not
empty after the read, which on a handle whose store was empty before the call
means exactly when at least one cube literal was read.  The path `-` is read
from `/dev/stdin`, every other path is used unchanged. -/
theorem parseFile_result (ceilLog2f : Nat → Nat) (heap : Heap) (h : CaDiCaLHandle)
    (path : String) (rd : DimacsRead) :
    ((h.parseFile ceilLog2f heap path rd).1 = parac_status.PARAC_PARSE_ERROR ↔
      rd.parseStatus ≠ none) ∧
    ((h.parseFile ceilLog2f heap path rd).1 = parac_status.PARAC_OK ↔ rd.parseStatus = none) ∧
    (h.parseFile ceilLog2f heap path rd).2.2.m_internal.path
      = (if path = "-" then "/dev/stdin" else path) ∧
    (h.parseFile ceilLog2f heap path rd).2.1.cubesAt h.m_internal.pregeneratedCubes
      = heap.cubesAt h.m_internal.pregeneratedCubes ++ rd.cubes ∧
    (rd.parseStatus ≠ none →
      (h.parseFile ceilLog2f heap path rd).2.2.m_hasFormula = h.m_hasFormula ∧
      (∀ a, (h.parseFile ceilLog2f heap path rd).2.1.jumplistAt a = heap.jumplistAt a) ∧
      (h.parseFile ceilLog2f heap path rd).2.2.getPregeneratedCubesCount
        = h.getPregeneratedCubesCount ∧
      (h.parseFile ceilLog2f heap path rd).2.2.getNormalizedPathLength
        = h.getNormalizedPathLength) ∧
    (rd.parseStatus = none →
      (h.parseFile ceilLog2f heap path rd).2.2.m_hasFormula = true ∧
      (heap.cubesAt h.m_internal.pregeneratedCubes ++ rd.cubes ≠ [] →
        (h.parseFile ceilLog2f heap path rd).2.1.jumplistAt
            h.m_internal.pregeneratedCubesJumplist
          = (jumplistLoop (heap.cubesAt h.m_internal.pregeneratedCubes ++ rd.cubes) 0 0 []).1
            ++ [(jumplistLoop
                  (heap.cubesAt h.m_internal.pregeneratedCubes ++ rd.cubes) 0 0 []).2] ∧
        (h.parseFile ceilLog2f heap path rd).2.2.getPregeneratedCubesCount
          = (jumplistLoop
              (heap.cubesAt h.m_internal.pregeneratedCubes ++ rd.cubes) 0 0 []).1.length) ∧
      (heap.cubesAt h.m_internal.pregeneratedCubes ++ rd.cubes = [] →
        (∀ a, (h.parseFile ceilLog2f heap path rd).2.1.jumplistAt a = heap.jumplistAt a) ∧
        (h.parseFile ceilLog2f heap path rd).2.2.getPregeneratedCubesCount
          = h.getPregeneratedCubesCount ∧
        (h.parseFile ceilLog2f heap path rd).2.2.getNormalizedPathLength
          = h.getNormalizedPathLength)) ∧
    (heap.cubesAt h.m_internal.pregeneratedCubes = [] →
      (heap.cubesAt h.m_internal.pregeneratedCubes ++ rd.cubes ≠ [] ↔ rd.cubes ≠ [])) := by
  have hst : (heap.setCubes h.m_internal.pregeneratedCubes
      (heap.cubesAt h.m_internal.pregeneratedCubes ++ rd.cubes)).cubesAt
      h.m_internal.pregeneratedCubes
      = heap.cubesAt h.m_internal.pregeneratedCubes ++ rd.cubes := by
    simp [Heap.setCubes, Heap.cubesAt]
  by_cases herr : rd.parseStatus = none
  · rw [parseFile_ok ceilLog2f heap h path rd herr, hst]
    by_cases hne : heap.cubesAt h.m_internal.pregeneratedCubes ++ rd.cubes = []
    · have hlen : ¬ (heap.cubesAt h.m_internal.pregeneratedCubes ++ rd.cubes).length ≠ 0 := by
        rw [hne]; simp
      rw [if_neg hlen]
      refine ⟨by simp [herr], by simp [herr], rfl, hst, fun hc => absurd herr hc,
        fun _ => ⟨rfl, fun hc => absurd hne hc, fun _ => ⟨fun _ => rfl, rfl, rfl⟩⟩, ?_⟩
      intro he
      rw [he, List.nil_append]
    · have hlen : (heap.cubesAt h.m_internal.pregeneratedCubes ++ rd.cubes).length ≠ 0 :=
        fun h0 => hne (List.length_eq_zero.mp h0)
      rw [if_pos hlen, generateJumplist_eq, hst]
      refine ⟨by simp [herr], by simp [herr], rfl, hst, fun hc => absurd herr hc,
        fun _ => ⟨rfl, fun _ => ⟨?_, rfl⟩, fun hc => absurd hc hne⟩, ?_⟩
      · simp [Heap.setJumplist, Heap.jumplistAt]
      · intro he
        rw [he, List.nil_append]
  · rw [parseFile_error ceilLog2f heap h path rd herr]
    refine ⟨by simp [herr], by simp [herr], rfl, hst,
      fun _ => ⟨rfl, fun _ => rfl, rfl, rfl⟩, fun hc => absurd hc herr, ?_⟩
    intro he
    rw [he, List.nil_append]

/-- Witness for C11 (amended): a new handle reads a file with two cube
lines. -/
theorem parseFile_result_witness :
    twoCubeRead.parseStatus = none ∧
    (heapWithStore []).cubesAt freshHandle.m_internal.pregeneratedCubes ++ twoCubeRead.cubes ≠ [] ∧
    (freshHandle.parseFile exactCeilLog2 (heapWithStore []) "-" twoCubeRead).1
      = parac_status.PARAC_OK ∧
    (freshHandle.parseFile exactCeilLog2 (heapWithStore []) "-" twoCubeRead).2.2.m_internal.path
      = "/dev/stdin" ∧
    (freshHandle.parseFile exactCeilLog2 (heapWithStore []) "-"
      twoCubeRead).2.2.getPregeneratedCubesCount
      = (jumplistLoop ((heapWithStore []).cubesAt freshHandle.m_internal.pregeneratedCubes
          ++ twoCubeRead.cubes) 0 0 []).1.length :=
  ⟨rfl, by decide, by decide, by decide,
   (((parseFile_result exactCeilLog2 (heapWithStore []) freshHandle "-"
      twoCubeRead).2.2.2.2.2.1 rfl).2.1 (by decide)).2⟩

/-- C12. `terminate()` is idempotent: for every handle state, calling it twice
leaves the handle, in particular the local-termination flag and the
termination request of the engine, as calling it once does. -/
theorem terminate_idempotent (h : CaDiCaLHandle) :
    h.terminate.terminate = h.terminate ∧
    h.terminate.m_internal.terminator.locallyTerminated = true ∧
    h.terminate.m_internal.solver.terminationForced = true ∧
    h.m_internal.terminate.terminate = h.m_internal.terminate :=
  ⟨rfl, rfl, rfl, rfl⟩

theorem perform_pathToDelete (ceilLog2f : Nat → Nat) (heap : Heap) (h : CaDiCaLHandle) (op : Op) :
    (h.perform ceilLog2f heap op).2.m_internal.pathToDelete
      = match op with
        | Op.prepareString _ path => path
        | _ => h.m_internal.pathToDelete := by
  cases op with
  | parseFile path rd =>
    show (h.parseFile ceilLog2f heap path rd).2.2.m_internal.pathToDelete = _
    by_cases herr : rd.parseStatus = none
    · rw [parseFile_ok ceilLog2f heap h path rd herr]
      dsimp only
      split_ifs <;> rfl
    · rw [parseFile_error ceilLog2f heap h path rd herr]
  | prepareString status path => rfl
  | generateJumplist =>
    show (h.generateJumplist ceilLog2f heap).2.m_internal.pathToDelete = _
    rw [generateJumplist_eq]
  | applyCubeAsAssumption cube =>
    show (h.applyCubeAsAssumption cube).m_internal.pathToDelete = _
    unfold CaDiCaLHandle.applyCubeAsAssumption
    split_ifs <;> rfl
  | applyLearnedClause clause => rfl
  | solve task flags out =>
    show (h.solve task flags out).2.m_internal.pathToDelete = _
    unfold CaDiCaLHandle.solve Internal.solve
    dsimp only
    cases h.m_solverConfig <;> dsimp only <;> split_ifs <;> rfl
  | terminate => rfl
  | takeSolverAssignment => rfl
  | resplitOnce path literals cubesWithStatus st =>
    show (h.resplitOnce path literals cubesWithStatus st).2.m_internal.pathToDelete = _
    unfold CaDiCaLHandle.resplitOnce CaDiCaLHandle.applyCubeAsAssumption
    dsimp only
    split_ifs <;> rfl
  | resplitCube p currentCube cfg flags0 flags1 run =>
    rw [perform_resplitCube]
    cases hr : h.resplitCube p currentCube cfg flags0 flags1 run with
    | none => rfl
    | some r =>
      show r.2.m_internal.pathToDelete = h.m_internal.pathToDelete
      unfold CaDiCaLHandle.resplitCube CaDiCaLHandle.generateCubesUnderTimeout
        CaDiCaLHandle.applyCubeAsAssumption at hr
      dsimp only at hr
      split_ifs at hr
      all_goals
        cases hr
        rfl
  | lookahead depth min_depth run =>
    show (h.lookahead ceilLog2f heap depth min_depth run).2.2.m_internal.pathToDelete = _
    unfold CaDiCaLHandle.lookahead CaDiCaLHandle.generateCubesUnderTimeout
    dsimp only
    split_ifs <;> rfl
  | fastLookahead depth run =>
    show (h.fastLookahead depth run).2.m_internal.pathToDelete = _
    unfold CaDiCaLHandle.fastLookahead
    dsimp only
    split_ifs <;> rfl

/-- The path a handle remembers for deletion after a sequence of operations. -/
theorem performAll_pathToDelete (ceilLog2f : Nat → Nat) (heap : Heap) (h : CaDiCaLHandle)
    (ops : List Op) :
    (h.performAll ceilLog2f heap ops).2.m_internal.pathToDelete
      = (lastPreparedPath ops).getD h.m_internal.pathToDelete := by
  induction ops generalizing heap h with
  | nil => rfl
  | cons op ops ih =>
    show ((h.perform ceilLog2f heap op).2.performAll ceilLog2f
      (h.perform ceilLog2f heap op).1 ops).2.m_internal.pathToDelete = _
    rw [ih, perform_pathToDelete]
    cases hl : lastPreparedPath ops with
    | some p => simp [lastPreparedPath, hl]
    | none => cases op <;> simp [lastPreparedPath, hl]

theorem lastPreparedPath_mem (ops : List Op) (p : String)
    (hp : lastPreparedPath ops = some p) : ∃ status, Op.prepareString status p ∈ ops := by
  induction ops with
  | nil => simp [lastPreparedPath] at hp
  | cons op ops ih =>
    cases hl : lastPreparedPath ops with
    | some q =>
      have hq : q = p := by simpa [lastPreparedPath, hl] using hp
      obtain ⟨status, hs⟩ := ih (hq ▸ hl)
      exact ⟨status, List.mem_cons_of_mem _ hs⟩
    | none =>
      cases op <;> simp [lastPreparedPath, hl] at hp
      case prepareString status path =>
        exact ⟨status, by simp [hp]⟩

theorem lastPreparedPath_isSome (ops : List Op) (status : parac_status) (path : String)
    (hmem : Op.prepareString status path ∈ ops) : lastPreparedPath ops ≠ none := by
  induction ops with
  | nil => simp at hmem
  | cons op ops ih =>
    cases hl : lastPreparedPath ops with
    | some q => simp [lastPreparedPath, hl]
    | none =>
      rcases List.mem_cons.mp hmem with he | ht
      · subst he
        simp [lastPreparedPath, hl]
      · exact absurd hl (ih ht)

/-- C18, the counterexample. `prepareString` is called twice on a new handle
and returns the paths of two materialized files; on destruction the handle
deletes the second file only, the path the first call returned is not
deleted. -/
theorem destroy_keeps_first_prepared_file :
    (freshHandle.prepareString parac_status.PARAC_OK "/dev/shm/paracooba-1").1.2
      = "/dev/shm/paracooba-1" ∧
    ((freshHandle.prepareString parac_status.PARAC_OK "/dev/shm/paracooba-1").2.prepareString
      parac_status.PARAC_OK "/dev/shm/paracooba-2").1.2 = "/dev/shm/paracooba-2" ∧
    (freshHandle.performAll exactCeilLog2 (heapWithStore [])
      [Op.prepareString parac_status.PARAC_OK "/dev/shm/paracooba-1",
        Op.prepareString parac_status.PARAC_OK "/dev/shm/paracooba-2"]).2.destroy
      = some "/dev/shm/paracooba-2" ∧
    (freshHandle.performAll exactCeilLog2 (heapWithStore [])
      [Op.prepareString parac_status.PARAC_OK "/dev/shm/paracooba-1",
        Op.prepareString parac_status.PARAC_OK "/dev/shm/paracooba-2"]).2.destroy
      ≠ some "/dev/shm/paracooba-1" := by
  decide

/-- C18, amended. Temp-file ownership: a handle that starts without a path to
delete (a new handle and every clone do) deletes the file `p` on destruction
if and only if the last `prepareString` on it returned `p` and `p` is not the
empty path, so the paths returned by earlier `prepareString` calls are not
deleted; a handle on which `prepareString` was never called, in particular one
that only parsed a file and a clone right after its construction, deletes
nothing. -/
theorem destroy_deletes_last_prepared_path (ceilLog2f : Nat → Nat) (heap : Heap)
    (h : CaDiCaLHandle) (ops : List Op)
    (hnew : h.m_internal.pathToDelete = "") :
    (∀ p, (h.performAll ceilLog2f heap ops).2.destroy = some p ↔
      (lastPreparedPath ops = some p ∧ p ≠ "")) ∧
    ((∀ status path, Op.prepareString status path ∉ ops) →
      (h.performAll ceilLog2f heap ops).2.destroy = none) ∧
    (lastPreparedPath ops ≠ none ↔ ∃ status path, Op.prepareString status path ∈ ops) ∧
    (∀ heap0 stop originatorId,
      (CaDiCaLHandle.create heap0 stop originatorId).2.destroy = none) ∧
    (∀ (o : CaDiCaLHandle) cfg, (o.clone cfg).destroy = none) ∧
    (∀ (o : CaDiCaLHandle) cfg, (o.clone cfg).m_internal.pathToDelete = "") := by
  have hd : (h.performAll ceilLog2f heap ops).2.destroy
      = if (lastPreparedPath ops).getD "" ≠ "" then some ((lastPreparedPath ops).getD "")
        else none := by
    unfold CaDiCaLHandle.destroy
    rw [performAll_pathToDelete, hnew]
  have hcalled : lastPreparedPath ops ≠ none ↔
      ∃ status path, Op.prepareString status path ∈ ops := by
    constructor
    · intro hne
      cases hl : lastPreparedPath ops with
      | none => exact absurd hl hne
      | some q =>
        obtain ⟨status, hs⟩ := lastPreparedPath_mem ops q hl
        exact ⟨status, q, hs⟩
    · rintro ⟨status, path, hmem⟩
      exact lastPreparedPath_isSome ops status path hmem
  refine ⟨?_, ?_, hcalled, fun _ _ _ => rfl, fun _ _ => rfl, fun _ _ => rfl⟩
  · intro p
    rw [hd]
    cases hl : lastPreparedPath ops with
    | none => simp
    | some q =>
      by_cases hq : q = ""
      · subst hq
        simp only [Option.getD_some, ne_eq, not_true_eq_false, if_false, Option.some.injEq]
        constructor
        · intro hn
          cases hn
        · rintro ⟨hp, hne⟩
          exact absurd hp.symm hne
      · simp only [Option.getD_some, ne_eq, hq, not_false_eq_true, if_true, Option.some.injEq]
        constructor
        · intro hp
          exact ⟨hp, hp ▸ hq⟩
        · exact fun hp => hp.1
  · intro hno
    rw [hd]
    cases hl : lastPreparedPath ops with
    | none => simp
    | some q =>
      obtain ⟨status, hs⟩ := lastPreparedPath_mem ops q hl
      exact absurd hs (hno status q)

/-- Witness for C18 (amended): a new handle prepares a string, parses the file
written for it and is destroyed. -/
theorem destroy_deletes_last_prepared_path_witness :
    freshHandle.m_internal.pathToDelete = "" ∧
    lastPreparedPath [Op.prepareString parac_status.PARAC_OK "/dev/shm/paracooba-1",
          Op.parseFile "/dev/shm/paracooba-1" plainRead] = some "/dev/shm/paracooba-1" ∧
    (freshHandle.performAll exactCeilLog2 (heapWithStore [])
      [Op.prepareString parac_status.PARAC_OK "/dev/shm/paracooba-1",
        Op.parseFile "/dev/shm/paracooba-1" plainRead]).2.destroy
      = some "/dev/shm/paracooba-1" ∧
    (freshHandle.performAll exactCeilLog2 (heapWithStore [])
      [Op.parseFile "a.cnf" plainRead]).2.destroy = none :=
  ⟨rfl, by decide,
   ((destroy_deletes_last_prepared_path exactCeilLog2 (heapWithStore []) freshHandle
      [Op.prepareString parac_status.PARAC_OK "/dev/shm/paracooba-1",
        Op.parseFile "/dev/shm/paracooba-1" plainRead] rfl).1 "/dev/shm/paracooba-1").mpr
     ⟨by decide, by decide⟩,
   by decide⟩

/-! ### Well-formedness of the jumplist -/

theorem jumplistLoop_wf (rest : List Literal) (i ls : Nat) (acc : List Nat)
    (hp : (acc ++ [ls]).Pairwise (fun a b => a < b)) (hb : ∀ x ∈ acc ++ [ls], x ≤ i) :
    ((jumplistLoop rest i ls acc).1 ++ [(jumplistLoop rest i ls acc).2]).Pairwise
        (fun a b => a < b) ∧
    (∀ x ∈ (jumplistLoop rest i ls acc).1 ++ [(jumplistLoop rest i ls acc).2],
      x ≤ i + rest.length) ∧
    ((jumplistLoop rest i ls acc).1 ++ [(jumplistLoop rest i ls acc).2])[0]?
      = (acc ++ [ls])[0]? ∧
    acc.length ≤ (jumplistLoop rest i ls acc).1.length := by
  induction rest generalizing i ls acc with
  | nil => exact ⟨hp, by simpa using hb, rfl, Nat.le_refl _⟩
  | cons lit rest ih =>
    by_cases hl : lit = 0
    · have e : jumplistLoop (lit :: rest) i ls acc
          = jumplistLoop rest (i + 1) (i + 1) (acc ++ [ls]) := by
        rw [jumplistLoop, if_pos hl]
      rw [e]
      have hp2 : ((acc ++ [ls]) ++ [i + 1]).Pairwise (fun a b => a < b) := by
        rw [List.pairwise_append]
        refine ⟨hp, by simp, ?_⟩
        intro a ha b hb2
        have := hb a ha
        simp only [List.mem_singleton] at hb2
        omega
      have hb2 : ∀ x ∈ (acc ++ [ls]) ++ [i + 1], x ≤ i + 1 := by
        intro x hx
        rcases List.mem_append.mp hx with h1 | h1
        · exact Nat.le_succ_of_le (hb x h1)
        · simp only [List.mem_singleton] at h1
          omega
      obtain ⟨r1, r2, r3, r4⟩ := ih (i + 1) (i + 1) (acc ++ [ls]) hp2 hb2
      refine ⟨r1, ?_, ?_, ?_⟩
      · intro x hx
        have := r2 x hx
        simp only [List.length_cons]
        omega
      · rw [r3, List.getElem?_append_left (by simp)]
      · simp only [List.length_append, List.length_singleton] at r4
        omega
    · have e : jumplistLoop (lit :: rest) i ls acc = jumplistLoop rest (i + 1) ls acc := by
        rw [jumplistLoop, if_neg hl]
      rw [e]
      obtain ⟨r1, r2, r3, r4⟩ := ih (i + 1) ls acc hp
        (fun x hx => Nat.le_succ_of_le (hb x hx))
      refine ⟨r1, ?_, r3, r4⟩
      intro x hx
      have := r2 x hx
      simp only [List.length_cons]
      omega

/-- After `generateJumplist` the jumplist fits the cube store, whatever the
store holds. -/
theorem generateJumplist_wellFormed (ceilLog2f : Nat → Nat) (heap : Heap) (h : CaDiCaLHandle) :
    (h.generateJumplist ceilLog2f heap).2.jumplistWellFormed
      (h.generateJumplist ceilLog2f heap).1 := by
  obtain ⟨r1, r2, r3, -⟩ := jumplistLoop_wf (heap.cubesAt h.m_internal.pregeneratedCubes) 0 0 []
    (by simp) (by simp)
  right
  rw [generateJumplist_eq]
  simp only [Heap.setJumplist, Heap.jumplistAt, Heap.cubesAt, if_true]
  refine ⟨by simp, r3.trans rfl, r1, ?_⟩
  intro x hx
  have := r2 x hx
  rw [Nat.zero_add] at this
  exact this

theorem jumplistWellFormed_of_fields (heap heap2 : Heap) (h h2 : CaDiCaLHandle)
    (hc : h2.m_internal.pregeneratedCubesCount = h.m_internal.pregeneratedCubesCount)
    (ha : h2.m_internal.pregeneratedCubes = h.m_internal.pregeneratedCubes)
    (hj : h2.m_internal.pregeneratedCubesJumplist = h.m_internal.pregeneratedCubesJumplist)
    (hjl : heap2.jumplistAt h.m_internal.pregeneratedCubesJumplist
      = heap.jumplistAt h.m_internal.pregeneratedCubesJumplist)
    (hlen : (heap.cubesAt h.m_internal.pregeneratedCubes).length
      ≤ (heap2.cubesAt h.m_internal.pregeneratedCubes).length)
    (hw : h.jumplistWellFormed heap) : h2.jumplistWellFormed heap2 := by
  unfold CaDiCaLHandle.jumplistWellFormed at hw ⊢
  rw [hc, ha, hj, hjl]
  rcases hw with h0 | ⟨w1, w2, w3, w4⟩
  · exact Or.inl h0
  · exact Or.inr ⟨w1, w2, w3, fun x hx => Nat.le_trans (w4 x hx) hlen⟩

theorem generateCubesUnderTimeout_table (h : CaDiCaLHandle) (run : GenerateCubesRun) :
    (h.generateCubesUnderTimeout run).m_internal.pregeneratedCubesCount
      = h.m_internal.pregeneratedCubesCount ∧
    (h.generateCubesUnderTimeout run).m_internal.pregeneratedCubes
      = h.m_internal.pregeneratedCubes ∧
    (h.generateCubesUnderTimeout run).m_internal.pregeneratedCubesJumplist
      = h.m_internal.pregeneratedCubesJumplist := by
  unfold CaDiCaLHandle.generateCubesUnderTimeout
  dsimp only
  split_ifs <;> exact ⟨rfl, rfl, rfl⟩

theorem parseFile_wellFormed (ceilLog2f : Nat → Nat) (heap : Heap) (h : CaDiCaLHandle)
    (path : String) (rd : DimacsRead) (hw : h.jumplistWellFormed heap) :
    (h.parseFile ceilLog2f heap path rd).2.2.jumplistWellFormed
      (h.parseFile ceilLog2f heap path rd).2.1 := by
  have hst : (heap.setCubes h.m_internal.pregeneratedCubes
      (heap.cubesAt h.m_internal.pregeneratedCubes ++ rd.cubes)).cubesAt
      h.m_internal.pregeneratedCubes
      = heap.cubesAt h.m_internal.pregeneratedCubes ++ rd.cubes := by
    simp [Heap.setCubes, Heap.cubesAt]
  have hkeep : ∀ h2 : CaDiCaLHandle,
      h2.m_internal.pregeneratedCubesCount = h.m_internal.pregeneratedCubesCount →
      h2.m_internal.pregeneratedCubes = h.m_internal.pregeneratedCubes →
      h2.m_internal.pregeneratedCubesJumplist = h.m_internal.pregeneratedCubesJumplist →
      h2.jumplistWellFormed (heap.setCubes h.m_internal.pregeneratedCubes
        (heap.cubesAt h.m_internal.pregeneratedCubes ++ rd.cubes)) := by
    intro h2 hc ha hj
    refine jumplistWellFormed_of_fields heap _ h h2 hc ha hj rfl ?_ hw
    rw [hst, List.length_append]
    exact Nat.le_add_right _ _
  by_cases herr : rd.parseStatus = none
  · rw [parseFile_ok ceilLog2f heap h path rd herr]
    dsimp only
    by_cases hlen : ((heap.setCubes h.m_internal.pregeneratedCubes
        (heap.cubesAt h.m_internal.pregeneratedCubes ++ rd.cubes)).cubesAt
        h.m_internal.pregeneratedCubes).length ≠ 0
    · rw [if_pos hlen]
      exact generateJumplist_wellFormed ceilLog2f _ _
    · rw [if_neg hlen]
      exact hkeep _ rfl rfl rfl
  · rw [parseFile_error ceilLog2f heap h path rd herr]
    exact hkeep _ rfl rfl rfl

theorem lookahead_wellFormed (ceilLog2f : Nat → Nat) (heap : Heap) (h : CaDiCaLHandle)
    (depth min_depth : Nat) (run : GenerateCubesRun) (hw : h.jumplistWellFormed heap) :
    (h.lookahead ceilLog2f heap depth min_depth run).2.2.jumplistWellFormed
      (h.lookahead ceilLog2f heap depth min_depth run).2.1 := by
  unfold CaDiCaLHandle.lookahead
  dsimp only
  by_cases hne : heap.cubesAt h.m_internal.pregeneratedCubes ≠ []
  · simp only [if_pos hne]
    split_ifs
    · exact Or.inl (generateCubesUnderTimeout_table _ run).1
    · exact Or.inl (generateCubesUnderTimeout_table _ run).1
    · exact generateJumplist_wellFormed ceilLog2f _ _
  · simp only [if_neg hne]
    split_ifs
    · exact jumplistWellFormed_of_fields heap heap h _ (generateCubesUnderTimeout_table h run).1
        (generateCubesUnderTimeout_table h run).2.1 (generateCubesUnderTimeout_table h run).2.2
        rfl (Nat.le_refl _) hw
    · exact jumplistWellFormed_of_fields heap heap h _ (generateCubesUnderTimeout_table h run).1
        (generateCubesUnderTimeout_table h run).2.1 (generateCubesUnderTimeout_table h run).2.2
        rfl (Nat.le_refl _) hw
    · exact generateJumplist_wellFormed ceilLog2f _ _

theorem performAll_wellFormed (ceilLog2f : Nat → Nat) (heap : Heap) (h : CaDiCaLHandle)
    (ops : List Op) (hw : h.jumplistWellFormed heap)
    (hops : ∀ op ∈ ops, op.writesCubeTable = true) :
    (h.performAll ceilLog2f heap ops).2.jumplistWellFormed
      (h.performAll ceilLog2f heap ops).1 := by
  induction ops generalizing heap h with
  | nil => exact hw
  | cons op ops ih =>
    show ((h.perform ceilLog2f heap op).2.performAll ceilLog2f
      (h.perform ceilLog2f heap op).1 ops).2.jumplistWellFormed _
    apply ih _ _ _ (fun o ho => hops o (by simp [ho]))
    have hop := hops op (by simp)
    cases op with
    | parseFile path rd => exact parseFile_wellFormed ceilLog2f heap h path rd hw
    | generateJumplist => exact generateJumplist_wellFormed ceilLog2f heap h
    | lookahead depth min_depth run =>
      exact lookahead_wellFormed ceilLog2f heap h depth min_depth run hw
    | prepareString status path => simp [Op.writesCubeTable] at hop
    | applyCubeAsAssumption cube => simp [Op.writesCubeTable] at hop
    | applyLearnedClause clause => simp [Op.writesCubeTable] at hop
    | solve task flags out => simp [Op.writesCubeTable] at hop
    | terminate => simp [Op.writesCubeTable] at hop
    | takeSolverAssignment => simp [Op.writesCubeTable] at hop
    | resplitOnce path literals cubesWithStatus st => simp [Op.writesCubeTable] at hop
    | resplitCube p currentCube cfg flags0 flags1 run => simp [Op.writesCubeTable] at hop
    | fastLookahead depth run => simp [Op.writesCubeTable] at hop

/-- What `getCubeFromId` does on a handle whose jumplist fits its store. -/
theorem getCubeFromId_of_wellFormed (heap : Heap) (h : CaDiCaLHandle)
    (hw : h.jumplistWellFormed heap) :
    (∀ id, id < h.getPregeneratedCubesCount →
      ∃ b e, (heap.jumplistAt h.m_internal.pregeneratedCubesJumplist)[id]? = some b ∧
        (heap.jumplistAt h.m_internal.pregeneratedCubesJumplist)[id + 1]? = some e ∧
        b < e ∧ e ≤ (heap.cubesAt h.m_internal.pregeneratedCubes).length ∧
        h.getCubeFromId heap id
          = some (((heap.cubesAt h.m_internal.pregeneratedCubes).drop b).take (e - 1 - b))) ∧
    (∀ id, h.getPregeneratedCubesCount ≤ id →
      ∀ heap2 : Heap, h.getCubeFromId heap2 id = some []) := by
  constructor
  · intro id hid
    have hid2 : id < h.m_internal.pregeneratedCubesCount := hid
    rcases hw with h0 | ⟨w1, -, w3, w4⟩
    · omega
    · have h1 : id < (heap.jumplistAt h.m_internal.pregeneratedCubesJumplist).length := by omega
      have h2 : id + 1 < (heap.jumplistAt h.m_internal.pregeneratedCubesJumplist).length := by
        omega
      have hlt := (List.pairwise_iff_getElem.mp w3) id (id + 1) h1 h2 (Nat.lt_succ_self _)
      have hle := w4 _ (List.getElem_mem h2)
      refine ⟨_, _, List.getElem?_eq_getElem h1, List.getElem?_eq_getElem h2, hlt, hle, ?_⟩
      unfold CaDiCaLHandle.getCubeFromId
      rw [if_neg (by omega), List.getElem?_eq_getElem h1, List.getElem?_eq_getElem h2]
      dsimp only
      unfold cubeRange
      rw [if_pos ⟨by omega, by omega, hle⟩]
  · intro id hid heap2
    have hid2 : h.m_internal.pregeneratedCubesCount ≤ id := hid
    unfold CaDiCaLHandle.getCubeFromId
    rw [if_pos hid2]

/-- C21. Jumplist well-formedness on a handle that shares its cube table with no
other handle: starting from a handle whose jumplist fits its store (a new
handle does), after any sequence of `parseFile`, `lookahead` and
`generateJumplist` either the cube count is `0` or the jumplist has
`count + 1` entries, starts with `0`, is strictly increasing and every entry is
at most the length of the flat cube store; hence for every `id < count` both
jumplist reads of `getCubeFromId` are in bounds with `begin ≤ end`, and for
every `id ≥ count` `getCubeFromId` returns the empty cube whatever the jumplist
holds. -/
theorem jumplist_wellFormed_after_table_operations (ceilLog2f : Nat → Nat) (heap : Heap)
    (h : CaDiCaLHandle) (ops : List Op) (hw : h.jumplistWellFormed heap)
    (hops : ∀ op ∈ ops, op.writesCubeTable = true) :
    (h.performAll ceilLog2f heap ops).2.jumplistWellFormed (h.performAll ceilLog2f heap ops).1 ∧
    (∀ id, id < (h.performAll ceilLog2f heap ops).2.getPregeneratedCubesCount →
      ∃ b e,
        ((h.performAll ceilLog2f heap ops).1.jumplistAt
          (h.performAll ceilLog2f heap ops).2.m_internal.pregeneratedCubesJumplist)[id]?
          = some b ∧
        ((h.performAll ceilLog2f heap ops).1.jumplistAt
          (h.performAll ceilLog2f heap ops).2.m_internal.pregeneratedCubesJumplist)[id + 1]?
          = some e ∧
        b < e ∧
        e ≤ ((h.performAll ceilLog2f heap ops).1.cubesAt
          (h.performAll ceilLog2f heap ops).2.m_internal.pregeneratedCubes).length ∧
        (h.performAll ceilLog2f heap ops).2.getCubeFromId (h.performAll ceilLog2f heap ops).1 id
          = some ((((h.performAll ceilLog2f heap ops).1.cubesAt
              (h.performAll ceilLog2f heap ops).2.m_internal.pregeneratedCubes).drop b).take
              (e - 1 - b))) ∧
    (∀ id, (h.performAll ceilLog2f heap ops).2.getPregeneratedCubesCount ≤ id →
      ∀ heap2 : Heap, (h.performAll ceilLog2f heap ops).2.getCubeFromId heap2 id = some []) ∧
    (∀ heap0 stop originatorId,
      (CaDiCaLHandle.create heap0 stop originatorId).2.jumplistWellFormed
        (CaDiCaLHandle.create heap0 stop originatorId).1) := by
  have hw2 := performAll_wellFormed ceilLog2f heap h ops hw hops
  obtain ⟨g1, g2⟩ := getCubeFromId_of_wellFormed _ _ hw2
  exact ⟨hw2, g1, g2, fun _ _ _ => Or.inl rfl⟩

/-- Witness for C21: a new handle parses a file with two cubes, runs a
lookahead that yields one cube and rebuilds the jumplist. -/
theorem jumplist_wellFormed_after_table_operations_witness :
    freshHandle.jumplistWellFormed (heapWithStore []) ∧
    (∀ op ∈ [Op.parseFile "a.cnf" twoCubeRead, Op.lookahead 1 1 oneCubeRun, Op.generateJumplist],
      op.writesCubeTable = true) ∧
    (freshHandle.performAll exactCeilLog2 (heapWithStore [])
      [Op.parseFile "a.cnf" twoCubeRead, Op.lookahead 1 1 oneCubeRun,
        Op.generateJumplist]).2.jumplistWellFormed
      (freshHandle.performAll exactCeilLog2 (heapWithStore [])
        [Op.parseFile "a.cnf" twoCubeRead, Op.lookahead 1 1 oneCubeRun,
          Op.generateJumplist]).1 ∧
    (freshHandle.performAll exactCeilLog2 (heapWithStore [])
      [Op.parseFile "a.cnf" twoCubeRead, Op.lookahead 1 1 oneCubeRun,
        Op.generateJumplist]).2.getCubeFromId
      (freshHandle.performAll exactCeilLog2 (heapWithStore [])
        [Op.parseFile "a.cnf" twoCubeRead, Op.lookahead 1 1 oneCubeRun,
          Op.generateJumplist]).1 0 = some [3] :=
  ⟨Or.inl rfl, by simp [Op.writesCubeTable],
   (jumplist_wellFormed_after_table_operations exactCeilLog2 (heapWithStore []) freshHandle
      [Op.parseFile "a.cnf" twoCubeRead, Op.lookahead 1 1 oneCubeRun, Op.generateJumplist]
      (Or.inl rfl) (by simp [Op.writesCubeTable])).1,
   by decide⟩

/-! ### The lookahead timeout -/

/-- C24. A clone starts with its parent's cube table: immediately after cloning
handle `h` into `c`, `c` has the originator id, path, cube count and normalized
path length of `h`, and `c.getCubeFromId i` equals `h.getCubeFromId i` for
every `i` (and so does `getCubeFromPath`). -/
theorem clone_starts_with_parent_table (heap : Heap) (h : CaDiCaLHandle) (cfg : SolverConfig) :
    (h.clone cfg).m_internal.originatorId = h.m_internal.originatorId ∧
    (h.clone cfg).m_internal.path = h.m_internal.path ∧
    (h.clone cfg).getPregeneratedCubesCount = h.getPregeneratedCubesCount ∧
    (h.clone cfg).getNormalizedPathLength = h.getNormalizedPathLength ∧
    (∀ i, (h.clone cfg).getCubeFromId heap i = h.getCubeFromId heap i) ∧
    (∀ p, (h.clone cfg).getCubeFromPath heap p = h.getCubeFromPath heap p) :=
  ⟨rfl, rfl, rfl, rfl, fun _ => rfl, fun _ => rfl⟩

end parac.solver

namespace parac.communicator

/-! ## Properties of the timeout controller -/

theorem TimeoutController.find_some (c : TimeoutController) (x : Nat) (e : Timeout)
    (h : c.find x = some e) : e ∈ c.timeoutList ∧ e.node = x := by
  unfold TimeoutController.find at h
  refine ⟨List.mem_of_find?_eq_some h, ?_⟩
  have := List.find?_some h
  simpa using this

theorem TimeoutController.find_none (c : TimeoutController) (x : Nat)
    (h : ∀ e ∈ c.timeoutList, e.node ≠ x) : c.find x = none := by
  unfold TimeoutController.find
  rw [List.find?_eq_none]
  intro e he
  simpa using h e he

theorem TimeoutController.cancel_some (c : TimeoutController) (x : Nat) (e : Timeout)
    (h : c.find x = some e) :
    c.cancel x
      = some ({ c with timeoutList := c.timeoutList.filter (fun y => y.node ≠ x) }, []) := by
  unfold TimeoutController.cancel
  rw [h]
  rfl

theorem filter_map_clear (l : List Timeout) (t : Nat) :
    (l.map (fun x =>
        if x.node = t then
          ({ x with timeout := { expired := none, expired_userdata := none } } : Timeout)
        else x)).filter (fun y => y.node ≠ t)
      = l.filter (fun y => y.node ≠ t) := by
  induction l with
  | nil => rfl
  | cons a l ih =>
    rw [List.map_cons, List.filter_cons, List.filter_cons, ih]
    by_cases ha : a.node = t <;> simp [ha]

theorem find_map_clear (l : List Timeout) (t : Nat) (e : Timeout)
    (h : l.find? (fun e => e.node = t) = some e) :
    ∃ e1, (l.map (fun x =>
        if x.node = t then
          ({ x with timeout := { expired := none, expired_userdata := none } } : Timeout)
        else x)).find? (fun e => e.node = t) = some e1 := by
  induction l with
  | nil => simp at h
  | cons a l ih =>
    by_cases ha : a.node = t
    · exact ⟨{ a with timeout := { expired := none, expired_userdata := none } },
        by simp [List.find?, ha]⟩
    · have h2 : l.find? (fun e => e.node = t) = some e := by
        simpa [List.find?, ha] using h
      obtain ⟨e1, he1⟩ := ih h2
      exact ⟨e1, by simpa [List.find?, ha] using he1⟩

/-- The cancel token on a pending timeout. -/
theorem TimeoutController.cancelToken_some (c : TimeoutController) (t : Nat) (e : Timeout)
    (h : c.find t = some e) :
    c.cancelToken t
      = some ({ c with timeoutList := c.timeoutList.filter (fun y => y.node ≠ t) }, []) := by
  unfold TimeoutController.cancelToken
  rw [h]
  obtain ⟨e1, he1⟩ := find_map_clear c.timeoutList t e h
  have he2 : ({ c with timeoutList := c.timeoutList.map (fun x =>
      if x.node = t then
        ({ x with timeout := { expired := none, expired_userdata := none } } : Timeout)
      else x) } : TimeoutController).find t = some e1 := he1
  dsimp only
  rw [TimeoutController.cancel_some _ t e1 he2]
  dsimp only
  rw [filter_map_clear]

theorem TimeoutController.find_after_cancel (c : TimeoutController) (t : Nat) :
    ({ c with timeoutList := c.timeoutList.filter (fun y => y.node ≠ t) } :
      TimeoutController).find t = none := by
  apply TimeoutController.find_none
  intro e he
  have := (List.mem_filter.mp he).2
  simpa using this

/-- C13, the counterexample. On a controller with the single pending timeout
`0`, the first cancel of `0` succeeds and empties the list; the second cancel
of `0` acts on a node that was destroyed by the first and is not defined. -/
theorem cancel_twice_not_defined :
    oneTimeout.cancelToken 0 = some ({ timeoutList := [], allocated := 1 }, []) ∧
    ((oneTimeout.cancelToken 0).bind (fun r => r.1.cancelToken 0)) = none ∧
    ((oneTimeout.cancelToken 0).bind (fun r => r.1.cancelToken 0)) ≠ oneTimeout.cancelToken 0 := by
  decide

/-- C13, amended. Cancelling a pending timeout `t` removes exactly `t` from the
pending timeouts, keeps the others in their order and invokes no callback; the
cancel destroys the node of `t`, so that a second cancel of `t` (through the
token or through `cancel`) finds no node to act on and is not defined. -/
theorem cancelToken_removes_exactly_once (c : TimeoutController) (t : Nat) (e : Timeout)
    (hpending : c.find t = some e) :
    ∃ c1, c.cancelToken t = some (c1, []) ∧
      c1.timeoutList = c.timeoutList.filter (fun y => y.node ≠ t) ∧
      c1.allocated = c.allocated ∧
      c1.find t = none ∧
      c1.cancelToken t = none ∧
      c1.cancel t = none := by
  refine ⟨_, TimeoutController.cancelToken_some c t e hpending, rfl, rfl,
    TimeoutController.find_after_cancel c t, ?_, ?_⟩
  · unfold TimeoutController.cancelToken
    rw [TimeoutController.find_after_cancel c t]
  · unfold TimeoutController.cancel
    rw [TimeoutController.find_after_cancel c t]

/-- Witness for C13 (amended): the single pending timeout of `oneTimeout`. -/
theorem cancelToken_removes_exactly_once_witness :
    oneTimeout.find 0 = some ⟨0, ⟨some 42, some 5⟩⟩ ∧
    ∃ c1, oneTimeout.cancelToken 0 = some (c1, []) ∧
      c1.timeoutList = oneTimeout.timeoutList.filter (fun y => y.node ≠ 0) ∧
      c1.allocated = oneTimeout.allocated ∧
      c1.find 0 = none ∧
      c1.cancelToken 0 = none ∧
      c1.cancel 0 = none :=
  ⟨rfl, cancelToken_removes_exactly_once oneTimeout 0 ⟨0, ⟨some 42, some 5⟩⟩ rfl⟩

/-! ### After a cancel -/

theorem TimeoutController.step_retired (c c1 : TimeoutController) (t : Nat) (ev : Event)
    (calls : List ExpiryCall) (hinv : c.retired t) (hstep : c.step ev = some (c1, calls)) :
    c1.retired t ∧ ∀ call ∈ calls, call.timeout ≠ t := by
  obtain ⟨ht, hl⟩ := hinv
  have hfilter : ∀ x, (({ c with timeoutList := c.timeoutList.filter (fun y => y.node ≠ x) } :
      TimeoutController).retired t) := by
    intro x
    exact ⟨ht, fun e he => hl e (List.mem_filter.mp he).1⟩
  cases ev with
  | setTimeout ms userdata cb =>
    simp only [TimeoutController.step, TimeoutController.setTimeout, Option.some.injEq,
      Prod.mk.injEq] at hstep
    obtain ⟨hc, hcalls⟩ := hstep
    subst hc hcalls
    refine ⟨⟨Nat.lt_succ_of_lt ht, ?_⟩, by simp⟩
    intro e he
    rcases List.mem_cons.mp he with h0 | h1
    · subst h0
      exact ⟨Nat.ne_of_gt ht, Nat.lt_succ_self _⟩
    · exact ⟨(hl e h1).1, Nat.lt_succ_of_lt (hl e h1).2⟩
  | cancelToken x =>
    have hs : c.cancelToken x = some (c1, calls) := hstep
    cases hf : c.find x with
    | none =>
      unfold TimeoutController.cancelToken at hs
      rw [hf] at hs
      cases hs
    | some e =>
      rw [TimeoutController.cancelToken_some c x e hf] at hs
      simp only [Option.some.injEq, Prod.mk.injEq] at hs
      obtain ⟨hc, hcalls⟩ := hs
      subst hc hcalls
      exact ⟨hfilter x, by simp⟩
  | cancel x =>
    have hs : c.cancel x = some (c1, calls) := hstep
    cases hf : c.find x with
    | none =>
      unfold TimeoutController.cancel at hs
      rw [hf] at hs
      cases hs
    | some e =>
      rw [TimeoutController.cancel_some c x e hf] at hs
      simp only [Option.some.injEq, Prod.mk.injEq] at hs
      obtain ⟨hc, hcalls⟩ := hs
      subst hc hcalls
      exact ⟨hfilter x, by simp⟩
  | timerHandler elem errc =>
    have hs : c.timerHandler elem errc = some (c1, calls) := hstep
    unfold TimeoutController.timerHandler at hs
    cases errc with
    | true =>
      simp only [if_true, Option.some.injEq, Prod.mk.injEq] at hs
      obtain ⟨hc, hcalls⟩ := hs
      subst hc hcalls
      exact ⟨⟨ht, hl⟩, by simp⟩
    | false =>
      simp only [Bool.false_eq_true, if_false] at hs
      cases hf : c.find elem with
      | none =>
        rw [hf] at hs
        cases hs
      | some e =>
        rw [hf] at hs
        have hne : elem ≠ t := by
          obtain ⟨hmem, hnode⟩ := TimeoutController.find_some c elem e hf
          rw [← hnode]
          exact (hl e hmem).1
        cases hexp : e.timeout.expired with
        | none =>
          simp only [hexp, Option.some.injEq, Prod.mk.injEq] at hs
          obtain ⟨hc, hcalls⟩ := hs
          subst hc hcalls
          exact ⟨⟨ht, hl⟩, by simp⟩
        | some cb =>
          simp only [hexp, TimeoutController.cancel_some c elem e hf, Option.some.injEq,
            Prod.mk.injEq] at hs
          obtain ⟨hc, hcalls⟩ := hs
          subst hc hcalls
          refine ⟨hfilter elem, ?_⟩
          intro call hcall
          simp only [List.mem_singleton] at hcall
          subst hcall
          exact hne

theorem TimeoutController.run_retired (c c2 : TimeoutController) (t : Nat) (evs : List Event)
    (calls : List ExpiryCall) (hinv : c.retired t) (hrun : c.run evs = some (c2, calls)) :
    c2.retired t ∧ ∀ call ∈ calls, call.timeout ≠ t := by
  induction evs generalizing c calls with
  | nil =>
    simp only [TimeoutController.run, Option.some.injEq, Prod.mk.injEq] at hrun
    obtain ⟨hc, hcalls⟩ := hrun
    subst hc hcalls
    exact ⟨hinv, by simp⟩
  | cons ev evs ih =>
    unfold TimeoutController.run at hrun
    cases hs : c.step ev with
    | none =>
      rw [hs] at hrun
      cases hrun
    | some r =>
      obtain ⟨c1, calls1⟩ := r
      rw [hs] at hrun
      dsimp only at hrun
      cases hr : c1.run evs with
      | none =>
        rw [hr] at hrun
        cases hrun
      | some r2 =>
        obtain ⟨c3, calls2⟩ := r2
        rw [hr] at hrun
        simp only [Option.some.injEq, Prod.mk.injEq] at hrun
        obtain ⟨hc, hcalls⟩ := hrun
        subst hc hcalls
        obtain ⟨hinv1, hcalls1⟩ := TimeoutController.step_retired c c1 t ev calls1 hinv hs
        obtain ⟨hinv2, hcalls2⟩ := ih c1 calls2 hinv1 hr
        refine ⟨hinv2, ?_⟩
        intro call hcall
        rcases List.mem_append.mp hcall with h1 | h2
        · exact hcalls1 call h1
        · exact hcalls2 call h2

theorem TimeoutController.destroy_calls (c : TimeoutController) (call : ExpiryCall)
    (hcall : call ∈ c.destroy.2) :
    ∃ e ∈ c.timeoutList, e.timeout.expired = some call.callback ∧ e.node = call.timeout ∧
      e.timeout.expired_userdata = call.userdata := by
  simp only [TimeoutController.destroy, List.mem_flatMap] at hcall
  obtain ⟨e, he, hmem⟩ := hcall
  refine ⟨e, he, ?_⟩
  unfold Timeout.destroy at hmem
  cases hexp : e.timeout.expired with
  | none => simp [hexp] at hmem
  | some cb =>
    simp only [hexp, List.mem_singleton] at hmem
    subst hmem
    exact ⟨rfl, rfl, rfl⟩

theorem TimeoutController.wellFormed_filter (c : TimeoutController) (x : Nat)
    (hwf : c.wellFormed) :
    ({ c with timeoutList := c.timeoutList.filter (fun y => y.node ≠ x) } :
      TimeoutController).wellFormed := by
  refine ⟨fun e he => hwf.1 e (List.mem_filter.mp he).1, ?_⟩
  exact (hwf.2.sublist ((List.filter_sublist c.timeoutList).map Timeout.node))

/-- Every state reached from a well-formed controller is well-formed, in
particular every state reached from the empty controller. -/
theorem TimeoutController.step_wellFormed (c c1 : TimeoutController) (ev : Event)
    (calls : List ExpiryCall) (hwf : c.wellFormed) (hstep : c.step ev = some (c1, calls)) :
    c1.wellFormed := by
  cases ev with
  | setTimeout ms userdata cb =>
    simp only [TimeoutController.step, TimeoutController.setTimeout, Option.some.injEq,
      Prod.mk.injEq] at hstep
    obtain ⟨hc, -⟩ := hstep
    subst hc
    refine ⟨?_, ?_⟩
    · intro e he
      rcases List.mem_cons.mp he with h0 | h1
      · subst h0
        exact Nat.lt_succ_self _
      · exact Nat.lt_succ_of_lt (hwf.1 e h1)
    · simp only [List.map_cons, List.nodup_cons]
      refine ⟨?_, hwf.2⟩
      intro hmem
      obtain ⟨e, he, hnode⟩ := List.mem_map.mp hmem
      have := hwf.1 e he
      omega
  | cancelToken x =>
    have hs : c.cancelToken x = some (c1, calls) := hstep
    cases hf : c.find x with
    | none =>
      unfold TimeoutController.cancelToken at hs
      rw [hf] at hs
      cases hs
    | some e =>
      rw [TimeoutController.cancelToken_some c x e hf] at hs
      simp only [Option.some.injEq, Prod.mk.injEq] at hs
      obtain ⟨hc, -⟩ := hs
      subst hc
      exact TimeoutController.wellFormed_filter c x hwf
  | cancel x =>
    have hs : c.cancel x = some (c1, calls) := hstep
    cases hf : c.find x with
    | none =>
      unfold TimeoutController.cancel at hs
      rw [hf] at hs
      cases hs
    | some e =>
      rw [TimeoutController.cancel_some c x e hf] at hs
      simp only [Option.some.injEq, Prod.mk.injEq] at hs
      obtain ⟨hc, -⟩ := hs
      subst hc
      exact TimeoutController.wellFormed_filter c x hwf
  | timerHandler elem errc =>
    have hs : c.timerHandler elem errc = some (c1, calls) := hstep
    unfold TimeoutController.timerHandler at hs
    cases errc with
    | true =>
      simp only [if_true, Option.some.injEq, Prod.mk.injEq] at hs
      obtain ⟨hc, -⟩ := hs
      subst hc
      exact hwf
    | false =>
      simp only [Bool.false_eq_true, if_false] at hs
      cases hf : c.find elem with
      | none =>
        rw [hf] at hs
        cases hs
      | some e =>
        rw [hf] at hs
        cases hexp : e.timeout.expired with
        | none =>
          simp only [hexp, Option.some.injEq, Prod.mk.injEq] at hs
          obtain ⟨hc, -⟩ := hs
          subst hc
          exact hwf
        | some cb =>
          simp only [hexp, TimeoutController.cancel_some c elem e hf, Option.some.injEq,
            Prod.mk.injEq] at hs
          obtain ⟨hc, -⟩ := hs
          subst hc
          exact TimeoutController.wellFormed_filter c elem hwf

theorem TimeoutController.timerHandler_retired (c : TimeoutController) (t : Nat)
    (hinv : c.retired t) :
    c.timerHandler t false = none ∧ c.destroy.1.timerHandler t false = none := by
  have hf : c.find t = none := TimeoutController.find_none c t (fun e he => (hinv.2 e he).1)
  constructor
  · unfold TimeoutController.timerHandler
    simp only [Bool.false_eq_true, if_false, hf]
  · rfl

/-- C14. The cancel token of a pending timeout `t` invokes no callback and erases
the entry of `t`.  Afterwards a completion handler of the timer of `t` that
reports the wait as aborted does nothing, and no callback is invoked on `t` by
any sequence of events that is defined nor by the destruction of the
controller.  But a completion handler of the timer of `t` that is delivered
without error after the cancel (the timer had expired and its handler was
queued when the cancel ran) looks into the erased entry: it is not defined,
right after the cancel, at every later point and after the destruction of the
controller. -/
theorem cancelled_timeout_late_completion (c : TimeoutController) (t : Nat) (e : Timeout)
    (hwf : c.wellFormed) (hpending : c.find t = some e) :
    ∃ c1, c.cancelToken t = some (c1, []) ∧
      c1.timerHandler t true = some (c1, []) ∧
      c1.timerHandler t false = none ∧
      (∀ evs, c1.run (Event.timerHandler t false :: evs) = none) ∧
      (∀ evs c2 calls, c1.run evs = some (c2, calls) →
        (∀ call ∈ calls ++ c2.destroy.2, call.timeout ≠ t) ∧
        c2.timerHandler t false = none ∧
        c2.destroy.1.timerHandler t false = none) := by
  obtain ⟨hmem, hnode⟩ := TimeoutController.find_some c t e hpending
  have hinv : ({ c with timeoutList := c.timeoutList.filter (fun y => y.node ≠ t) } :
      TimeoutController).retired t := by
    refine ⟨hnode ▸ hwf.1 e hmem, ?_⟩
    intro x hx
    obtain ⟨hx1, hx2⟩ := List.mem_filter.mp hx
    exact ⟨by simpa using hx2, hwf.1 x hx1⟩
  have hlate := (TimeoutController.timerHandler_retired _ t hinv).1
  refine ⟨_, TimeoutController.cancelToken_some c t e hpending, rfl, hlate, ?_, ?_⟩
  · intro evs
    unfold TimeoutController.run
    simp only [TimeoutController.step, hlate]
  · intro evs c2 calls hrun
    obtain ⟨hinv2, hcalls2⟩ := TimeoutController.run_retired _ c2 t evs calls hinv hrun
    refine ⟨?_, TimeoutController.timerHandler_retired c2 t hinv2⟩
    intro call hcall
    rcases List.mem_append.mp hcall with h2 | h3
    · exact hcalls2 call h2
    · obtain ⟨x, hx, -, hxn, -⟩ := TimeoutController.destroy_calls c2 call h3
      rw [← hxn]
      exact (hinv2.2 x hx).1

/-- Witness for C14: the timeout `0` of `oneTimeout` is cancelled; a completion
of its timer that is then delivered without error is not defined. -/
theorem cancelled_timeout_late_completion_witness :
    oneTimeout.wellFormed ∧
    oneTimeout.find 0 = some ⟨0, ⟨some 42, some 5⟩⟩ ∧
    oneTimeout.run [Event.cancelToken 0, Event.timerHandler 0 false] = none ∧
    oneTimeout.run [Event.cancelToken 0, Event.timerHandler 0 true]
      = some ({ timeoutList := [], allocated := 1 }, []) ∧
    ∃ c1, oneTimeout.cancelToken 0 = some (c1, []) ∧ c1.timerHandler 0 false = none :=
  ⟨⟨by decide, by decide⟩, rfl, by decide, by decide,
   (cancelled_timeout_late_completion oneTimeout 0 ⟨0, ⟨some 42, some 5⟩⟩
      ⟨by decide, by decide⟩ rfl).imp (fun _ hc => ⟨hc.1, hc.2.2.1⟩)⟩

/-! ### Destruction of the controller -/

theorem flatMap_destroy_eq (l : List Timeout) :
    l.flatMap Timeout.destroy
      = l.filterMap (fun e => e.timeout.expired.map
          (fun cb => (⟨cb, e.node, e.timeout.expired_userdata⟩ : ExpiryCall))) := by
  induction l with
  | nil => rfl
  | cons a l ih =>
    rw [List.flatMap_cons, ih]
    unfold Timeout.destroy
    cases hexp : a.timeout.expired with
    | none => simp [List.filterMap_cons, hexp]
    | some cb => simp [List.filterMap_cons, hexp]

/-- C15, the counterexample. Destroying a controller whose single pending
timeout has the expiry callback `42` invokes that callback. -/
theorem destroy_invokes_pending_callback :
    oneTimeout.timeoutList = [⟨0, ⟨some 42, some 5⟩⟩] ∧
    oneTimeout.destroy.2 = [⟨42, 0, some 5⟩] ∧
    oneTimeout.destroy.2 ≠ [] := by
  decide

/-- C15, amended. When the timeout controller is destroyed, every still-pending
timeout is destroyed with it and no timeout remains pending; the destructor of
each pending timeout invokes its expiry callback if it has one, so the shutdown
invokes exactly one call per pending timeout with a callback, in list order,
and none for a timeout without callback. -/
theorem destroy_expires_pending_timeouts (c : TimeoutController) :
    c.destroy.1.timeoutList = [] ∧
    c.destroy.2 = c.timeoutList.filterMap (fun e => e.timeout.expired.map
      (fun cb => (⟨cb, e.node, e.timeout.expired_userdata⟩ : ExpiryCall))) ∧
    (∀ e ∈ c.timeoutList, ∀ cb, e.timeout.expired = some cb →
      (⟨cb, e.node, e.timeout.expired_userdata⟩ : ExpiryCall) ∈ c.destroy.2) ∧
    (∀ call ∈ c.destroy.2, ∃ e ∈ c.timeoutList,
      e.timeout.expired = some call.callback ∧ e.node = call.timeout ∧
      e.timeout.expired_userdata = call.userdata) := by
  refine ⟨rfl, flatMap_destroy_eq c.timeoutList, ?_, TimeoutController.destroy_calls c⟩
  intro e he cb hcb
  simp only [TimeoutController.destroy, List.mem_flatMap]
  exact ⟨e, he, by simp [Timeout.destroy, hcb]⟩

/-- Witness for C15 (amended): the pending timeout of `oneTimeout`. -/
theorem destroy_expires_pending_timeouts_witness :
    (⟨0, ⟨some 42, some 5⟩⟩ : Timeout) ∈ oneTimeout.timeoutList ∧
    (⟨42, 0, some 5⟩ : ExpiryCall) ∈ oneTimeout.destroy.2 :=
  ⟨by decide,
   (destroy_expires_pending_timeouts oneTimeout).2.2.1 ⟨0, ⟨some 42, some 5⟩⟩ (by decide) 42 rfl⟩

end parac.communicator

namespace parac.communicator

/-! ## The send queue -/

/-- C17. Send-queue hand-over: on a queue whose oldest entry is `e`, `front()`
returns `e` and leaves the queue unchanged; `popFromQueued()` removes exactly
`e` from the queue, keeps the remaining entries in their order, and inserts
`e`, stamped with the send time, into the waiting-for-ACK map under the message
number of `e`, leaving all other keys of the map as they were.  Entries sent
later are queued behind `e`. -/
theorem front_popFromQueued_handover (q : MessageSendQueue) (e : Entry) (rest : List Entry)
    (now : Nat) (hq : q.m_queued = e :: rest) :
    q.front = some (e, q) ∧
    (∀ body, (q.send body).front.map Prod.fst = some e) ∧
    ∃ q1, q.popFromQueued now = some q1 ∧
      q1.m_queued = rest ∧
      q1.m_waitingForACK e.number = some { e with sent := some now } ∧
      (∀ k, k ≠ e.number → q1.m_waitingForACK k = q.m_waitingForACK k) ∧
      q1.m_messageNumber = q.m_messageNumber := by
  refine ⟨?_, ?_, ?_⟩
  · unfold MessageSendQueue.front
    rw [hq]
  · intro body
    unfold MessageSendQueue.front MessageSendQueue.send
    simp [hq]
  · unfold MessageSendQueue.popFromQueued
    rw [hq]
    refine ⟨_, rfl, rfl, by simp, ?_, rfl⟩
    intro k hk
    simp [hk]

/-- Witness for C17: two messages are sent on a new queue, the first is handed
over at time `9`. -/
theorem front_popFromQueued_handover_witness :
    ((({} : MessageSendQueue).send 7).send 8).m_queued = ⟨0, 7, none⟩ :: [⟨1, 8, none⟩] ∧
    ∃ q1, ((({} : MessageSendQueue).send 7).send 8).popFromQueued 9 = some q1 ∧
      q1.m_queued = [⟨1, 8, none⟩] ∧
      q1.m_waitingForACK (Entry.mk 0 7 none).number = some { Entry.mk 0 7 none with sent := some 9 } ∧
      (∀ k, k ≠ (Entry.mk 0 7 none).number →
        q1.m_waitingForACK k = ((({} : MessageSendQueue).send 7).send 8).m_waitingForACK k) ∧
      q1.m_messageNumber = ((({} : MessageSendQueue).send 7).send 8).m_messageNumber :=
  ⟨rfl,
   (front_popFromQueued_handover ((({} : MessageSendQueue).send 7).send 8) ⟨0, 7, none⟩
      [⟨1, 8, none⟩] 9 rfl).2.2⟩

end parac.communicator

namespace parac.broker

/-! ## Serialization of descriptions and status -/

theorem loadSolverInstances_save (items : List (Nat × SolverInstance)) (rest : Archive) :
    loadSolverInstances items.length
        (items.flatMap (fun kv => ArchiveValue.uint64 kv.1 :: kv.2.save) ++ rest)
      = some (items.map (fun kv => (kv.1, { kv.2 with formula_received := false })), rest) := by
  induction items with
  | nil => rfl
  | cons kv items ih =>
    have e : loadSolverInstances (kv :: items).length
        ((kv :: items).flatMap (fun kv => ArchiveValue.uint64 kv.1 :: kv.2.save) ++ rest)
        = match loadSolverInstances items.length
            (items.flatMap (fun kv => ArchiveValue.uint64 kv.1 :: kv.2.save) ++ rest) with
          | none => none
          | some (its, ar2) =>
            some ((kv.1, { kv.2 with formula_received := false }) :: its, ar2) := rfl
    rw [e, ih]
    rfl

/-- C16, the counterexample. A solver instance that has received its formula is
serialized and deserialized into a new `SolverInstance`: the result has
`formula_received = false` and is not equal to the original under
`operator==`. -/
theorem solverInstance_roundtrip_loses_formula_received :
    SolverInstance.load {} (SolverInstance.save ⟨true, true, 3⟩) = some (⟨false, true, 3⟩, []) ∧
    SolverInstance.eq ⟨false, true, 3⟩ ⟨true, true, 3⟩ = false := by
  decide

/-- C16, amended. Deserializing the serialized form of a solver instance `x`
into a new `SolverInstance` yields the `formula_parsed` and `workQueueSize` of
`x` and `formula_received = false` (which is not serialized); the result is
equal to `x` under `operator==` exactly when `x.formula_received` is false.
Accordingly a `Status` comes back with the same keys and every instance with
`formula_received = false`. -/
theorem solverInstance_roundtrip (x : SolverInstance) :
    SolverInstance.load {} x.save
      = some ({ formula_received := false
                formula_parsed := x.formula_parsed
                workQueueSize := x.workQueueSize }, []) ∧
    (SolverInstance.eq
        { formula_received := false
          formula_parsed := x.formula_parsed
          workQueueSize := x.workQueueSize } x = true ↔ x.formula_received = false) ∧
    (∀ (s target : Status),
      Status.load target s.save
        = some ({ solverInstances :=
                    s.solverInstances.map
                      (fun kv => (kv.1, { kv.2 with formula_received := false })) }, [])) := by
  refine ⟨rfl, ?_, ?_⟩
  · cases hx : x.formula_received <;> simp [SolverInstance.eq, hx]
  · intro s target
    have h := loadSolverInstances_save s.solverInstances []
    rw [List.append_nil] at h
    simp only [Status.save, Status.load, h]

/-- C19. A description received from a peer is never marked local:
deserializing the serialized form of a description `d` into a new `Description`
yields the name, host, workers, udpListenPort, tcpListenPort and daemon of `d`
and `local = false`, whatever `d.local` was; in general `local` keeps the value
it had in the description that is loaded into. -/
theorem description_roundtrip_not_local (d : Description) :
    Description.load {} d.save
      = some ({ name := d.name
                host := d.host
                workers := d.workers
                udpListenPort := d.udpListenPort
                tcpListenPort := d.tcpListenPort
                daemon := d.daemon
                isLocal := false }, []) ∧
    (∀ target : Description, ∃ r, Description.load target d.save = some (r, []) ∧
      r.name = d.name ∧ r.host = d.host ∧ r.workers = d.workers ∧
      r.udpListenPort = d.udpListenPort ∧ r.tcpListenPort = d.tcpListenPort ∧
      r.daemon = d.daemon ∧ r.isLocal = target.isLocal) :=
  ⟨rfl, fun _ => ⟨_, rfl, rfl, rfl, rfl, rfl, rfl, rfl, rfl⟩⟩

end parac.broker

namespace paracooba

/-! ## The module search -/

theorem searchPaths_none (imports : Path → Bool) (l tried : List Path)
    (h : ∀ q ∈ l, imports q = false) :
    searchPaths imports l tried = { tried := tried ++ l, discovered := [] } := by
  induction l generalizing tried with
  | nil => simp [searchPaths]
  | cons p l ih =>
    have hp : imports p = false := h p (by simp)
    simp only [searchPaths, hp, Bool.false_eq_true, if_false]
    rw [ih _ (fun q hq => h q (by simp [hq]))]
    simp

theorem searchPaths_first (imports : Path → Bool) (pre post tried : List Path) (p : Path)
    (hpre : ∀ q ∈ pre, imports q = false) (hp : imports p = true) :
    searchPaths imports (pre ++ p :: post) tried
      = { tried := tried ++ pre ++ [p], discovered := [p] } := by
  induction pre generalizing tried with
  | nil => simp [searchPaths, hp]
  | cons a pre ih =>
    have ha : imports a = false := hpre a (by simp)
    have e : searchPaths imports (a :: pre ++ p :: post) tried
        = searchPaths imports (pre ++ p :: post) (tried ++ [a]) := by
      show searchPaths imports (a :: (pre ++ p :: post)) tried = _
      simp only [searchPaths, ha, Bool.false_eq_true, if_false]
    rw [e, ih _ (fun q hq => hpre q (by simp [hq]))]
    simp

theorem loadLoop_eq_searchPaths (env : Env) (type : parac_module_type) (name : String)
    (l : List Path) (k fuel : Nat) (tried : List Path)
    (hl : (PathSource.yields env type).drop k = l) (hfuel : l.length + 2 ≤ fuel) :
    loadLoop env name fuel { type := type, value := k } tried
      = some (searchPaths env.imports ((l ++ [[]]).map (fun p => p ++ [name])) tried) := by
  induction l generalizing k fuel tried with
  | nil =>
    obtain ⟨f, rfl⟩ : ∃ f, fuel = f + 2 := ⟨fuel - 2, by simp at hfuel; omega⟩
    have hk : (PathSource.yields env type)[k]? = none := by
      rw [← List.head?_drop, hl]
      rfl
    simp only [loadLoop, PathSource.is_complete, PathSource.call, hk, Bool.false_eq_true,
      if_false, List.nil_append, List.map_cons, List.map_nil, searchPaths]
    split_ifs <;> rfl
  | cons p l ih =>
    obtain ⟨f, rfl⟩ : ∃ f, fuel = f + 1 := ⟨fuel - 1, by simp at hfuel; omega⟩
    have hk : (PathSource.yields env type)[k]? = some p := by
      rw [← List.head?_drop, hl]
      rfl
    have hd : (PathSource.yields env type).drop (k + 1) = l := by
      rw [← List.tail_drop, hl]
      rfl
    simp only [loadLoop, PathSource.is_complete, PathSource.call, hk, Bool.false_eq_true,
      if_false, List.cons_append, List.map_cons, searchPaths]
    split_ifs
    · rfl
    · exact ih (k + 1) f _ hd (by simp at hfuel ⊢; omega)

/-- C20. Module search is a fixed ordered sequence with first match winning:
`load(type)` ends, and it tries, in this order, the library `parac_<type>` in
cwd, cwd/<type>, cwd/modules/<type>, progdir, progdir/<type>,
progdir/modules/<type>, /usr/local/lib/paracooba, /usr/local/lib,
/usr/lib/paracooba, /usr/lib and finally the empty path; it calls the discover
function of the first candidate that loads, once, and tries no later candidate,
and it calls no discover function if every candidate fails. -/
theorem load_first_match (env : Env) (type : parac_module_type) :
    load env type
      = some (searchPaths env.imports
          ((candidates env.current_path env.program_location.dropLast
              (parac_module_type_to_str type)).map
            (fun p => p ++ ["parac_" ++ parac_module_type_to_str type])) []) ∧
    (∀ pre p post,
      (candidates env.current_path env.program_location.dropLast
          (parac_module_type_to_str type)).map
        (fun p => p ++ ["parac_" ++ parac_module_type_to_str type]) = pre ++ p :: post →
      (∀ q ∈ pre, env.imports q = false) → env.imports p = true →
      load env type = some { tried := pre ++ [p], discovered := [p] }) ∧
    ((∀ q ∈ (candidates env.current_path env.program_location.dropLast
          (parac_module_type_to_str type)).map
        (fun p => p ++ ["parac_" ++ parac_module_type_to_str type]), env.imports q = false) →
      load env type
        = some { tried := (candidates env.current_path env.program_location.dropLast
                    (parac_module_type_to_str type)).map
                  (fun p => p ++ ["parac_" ++ parac_module_type_to_str type])
                 discovered := [] }) := by
  have hc : candidates env.current_path env.program_location.dropLast
      (parac_module_type_to_str type) = PathSource.yields env type ++ [[]] := by
    simp [candidates, PathSource.yields]
  have hload : load env type
      = some (searchPaths env.imports
          ((candidates env.current_path env.program_location.dropLast
              (parac_module_type_to_str type)).map
            (fun p => p ++ ["parac_" ++ parac_module_type_to_str type])) []) := by
    rw [hc]
    exact loadLoop_eq_searchPaths env type _ (PathSource.yields env type) 0 12 [] rfl
      (by simp [PathSource.yields])
  refine ⟨hload, ?_, ?_⟩
  · intro pre p post hsplit hpre hp
    rw [hload, hsplit, searchPaths_first env.imports pre post [] p hpre hp]
    simp
  · intro hall
    rw [hload, searchPaths_none env.imports _ [] hall]
    simp

/-- Witness for C20: only the library in `/usr/lib/paracooba` can be imported;
it is the ninth candidate, the eight before it are tried and fail, the two
after it are not tried. -/
theorem load_first_match_witness :
    (candidates installedEnv.current_path installedEnv.program_location.dropLast
        (parac_module_type_to_str parac_module_type.PARAC_MOD_SOLVER)).map
      (fun p => p ++ ["parac_" ++ parac_module_type_to_str parac_module_type.PARAC_MOD_SOLVER])
      = [["/home/user", "parac_solver"], ["/home/user", "solver", "parac_solver"],
         ["/home/user", "modules", "solver", "parac_solver"], ["/usr/bin", "parac_solver"],
         ["/usr/bin", "solver", "parac_solver"], ["/usr/bin", "modules", "solver", "parac_solver"],
         ["/usr/local/lib/paracooba", "parac_solver"], ["/usr/local/lib", "parac_solver"]]
        ++ ["/usr/lib/paracooba", "parac_solver"]
          :: [["/usr/lib", "parac_solver"], ["parac_solver"]] ∧
    load installedEnv parac_module_type.PARAC_MOD_SOLVER
      = some { tried := [["/home/user", "parac_solver"], ["/home/user", "solver", "parac_solver"],
                 ["/home/user", "modules", "solver", "parac_solver"], ["/usr/bin", "parac_solver"],
                 ["/usr/bin", "solver", "parac_solver"],
                 ["/usr/bin", "modules", "solver", "parac_solver"],
                 ["/usr/local/lib/paracooba", "parac_solver"], ["/usr/local/lib", "parac_solver"]]
                ++ [["/usr/lib/paracooba", "parac_solver"]]
               discovered := [["/usr/lib/paracooba", "parac_solver"]] } :=
  ⟨by decide,
   (load_first_match installedEnv parac_module_type.PARAC_MOD_SOLVER).2.1
     [["/home/user", "parac_solver"], ["/home/user", "solver", "parac_solver"],
       ["/home/user", "modules", "solver", "parac_solver"], ["/usr/bin", "parac_solver"],
       ["/usr/bin", "solver", "parac_solver"], ["/usr/bin", "modules", "solver", "parac_solver"],
       ["/usr/local/lib/paracooba", "parac_solver"], ["/usr/local/lib", "parac_solver"]]
     ["/usr/lib/paracooba", "parac_solver"]
     [["/usr/lib", "parac_solver"], ["parac_solver"]] (by decide) (by decide) (by decide)⟩

end paracooba

namespace parac.commonc

/-! ## Properties of the thread registry -/

theorem callNewThreadStartingCbs_eq (thread_id : Nat) (cbs : List (Option Nat)) :
    callNewThreadStartingCbs thread_id cbs
      = (cbs.filterMap id).map (fun cb => Call.new_thread_starting_cb cb thread_id) := by
  induction cbs with
  | nil => rfl
  | cons cb cbs ih =>
    cases cb with
    | none => simpa [callNewThreadStartingCbs] using ih
    | some c => simp [callNewThreadStartingCbs, ih]

/-- C25. `parac_thread_registry_create` returns PARAC_OK iff the entry was
allocated and `thrd_create` succeeded, OUT_OF_MEMORY when the allocation fails
or `thrd_create` returns `thrd_nomem`, and GENERIC_ERROR otherwise, and it
leaves the registry as it was when the allocation fails.  But when
`thrd_create` fails, the entry allocated for the new handle stays in the
thread list: the list is one entry longer than before the call, its first
entry has a `thrd_t` that was never written, and `wait_for_exit` joins it. -/
theorem create_keeps_handle_when_thrd_create_fails (registry : parac_thread_registry)
    (starter : Option Nat) (start_func : Nat) (out_handle : Bool) (thread : Nat)
    (join : Option Nat → Int) :
    (∀ env, (parac_thread_registry_create registry starter start_func out_handle env).1
        = parac_status.PARAC_OK ↔
      (env.allocOk = true ∧ env.thrd = thrd_result.thrd_success)) ∧
    (∀ env, (parac_thread_registry_create registry starter start_func out_handle env).1
        = parac_status.PARAC_OUT_OF_MEMORY ↔
      (env.allocOk = false ∨ env.thrd = thrd_result.thrd_nomem)) ∧
    (∀ thrd, (parac_thread_registry_create registry starter start_func out_handle
        ⟨false, thrd, thread⟩).2.1 = registry) ∧
    (parac_thread_registry_create registry starter start_func out_handle
        ⟨true, thrd_result.thrd_nomem, thread⟩).1 = parac_status.PARAC_OUT_OF_MEMORY ∧
    (parac_thread_registry_create registry starter start_func out_handle
        ⟨true, thrd_result.thrd_error, thread⟩).1 = parac_status.PARAC_GENERIC_ERROR ∧
    (parac_thread_registry_create registry starter start_func out_handle
        ⟨true, thrd_result.thrd_nomem, thread⟩).2.1.threads
      = ⟨⟨false, false, registry.threads.length + 1, starter, start_func, 0⟩, none⟩
          :: registry.threads ∧
    (parac_thread_registry_create registry starter start_func out_handle
        ⟨true, thrd_result.thrd_error, thread⟩).2.1.threads
      = ⟨⟨false, false, registry.threads.length + 1, starter, start_func, 0⟩, none⟩
          :: registry.threads ∧
    (parac_thread_registry_create registry starter start_func out_handle
        ⟨true, thrd_result.thrd_nomem, thread⟩).2.1.threads ≠ registry.threads ∧
    (parac_thread_registry_wait_for_exit
        (parac_thread_registry_create registry starter start_func out_handle
          ⟨true, thrd_result.thrd_nomem, thread⟩).2.1 join).2.head? = some none := by
  refine ⟨?_, ?_, ?_, rfl, rfl, rfl, rfl, ?_, rfl⟩
  · intro env
    obtain ⟨allocOk, thrd, th⟩ := env
    cases allocOk <;> cases thrd <;>
      simp [parac_thread_registry_create, parac_thread_handle_list_alloc_new]
  · intro env
    obtain ⟨allocOk, thrd, th⟩ := env
    cases allocOk <;> cases thrd <;>
      simp [parac_thread_registry_create, parac_thread_handle_list_alloc_new]
  · intro thrd
    rfl
  · intro hEq
    have hlen := congrArg List.length hEq
    simp [parac_thread_registry_create, parac_thread_handle_list_alloc_new] at hlen

/-- C26. When the handle allocation succeeds, `parac_thread_registry_create`
initialises the new handle with `stop = false`, `running = false`, the given
starter and start function and `thread_id` equal to the thread count of the
registry (which includes the new handle), and then invokes every non-null
new-thread-starting callback exactly once, in list order, with that handle,
before `thrd_create` is called; null callback entries are skipped. -/
theorem create_initialises_handle_and_calls_callbacks (registry : parac_thread_registry)
    (starter : Option Nat) (start_func : Nat) (out_handle : Bool) (thrd : thrd_result)
    (thread : Nat) :
    (parac_thread_registry_create registry starter start_func out_handle
        ⟨true, thrd, thread⟩).2.1.threads.head?.map (fun t => t.registry_handle)
      = some { stop := false
               running := false
               thread_id := registry.threads.length + 1
               starter := starter
               start_func := start_func } ∧
    (parac_thread_registry_create registry starter start_func out_handle
        ⟨true, thrd, thread⟩).2.1.threads.tail = registry.threads ∧
    (parac_thread_registry_create registry starter start_func out_handle
        ⟨true, thrd, thread⟩).2.1.threads.length = registry.threads.length + 1 ∧
    (parac_thread_registry_create registry starter start_func out_handle
        ⟨true, thrd, thread⟩).2.1.new_thread_starting_cbs = registry.new_thread_starting_cbs ∧
    (parac_thread_registry_create registry starter start_func out_handle
        ⟨true, thrd, thread⟩).2.2.2
      = (registry.new_thread_starting_cbs.filterMap id).map
          (fun cb => Call.new_thread_starting_cb cb (registry.threads.length + 1))
        ++ [Call.thrd_create (registry.threads.length + 1)] := by
  cases thrd <;>
    simp [parac_thread_registry_create, parac_thread_handle_list_alloc_new,
      callNewThreadStartingCbs_eq]

/-- C27. `parac_thread_registry_stop` sets `stop = true` on every handle in the
registry and changes nothing else: the list keeps its length and order, every
other field of every handle and the callback list are as before; it is
idempotent, and a handle created after the call starts with `stop = false`. -/
theorem stop_sets_stop_only (registry : parac_thread_registry) :
    (∀ t ∈ (parac_thread_registry_stop registry).threads, t.registry_handle.stop = true) ∧
    (parac_thread_registry_stop registry).threads.length = registry.threads.length ∧
    (parac_thread_registry_stop registry).threads.map
        (fun t => (t.registry_handle.running, t.registry_handle.thread_id,
          t.registry_handle.starter, t.registry_handle.start_func,
          t.registry_handle.exit_status, t.thread))
      = registry.threads.map
        (fun t => (t.registry_handle.running, t.registry_handle.thread_id,
          t.registry_handle.starter, t.registry_handle.start_func,
          t.registry_handle.exit_status, t.thread)) ∧
    (parac_thread_registry_stop registry).new_thread_starting_cbs
      = registry.new_thread_starting_cbs ∧
    parac_thread_registry_stop (parac_thread_registry_stop registry)
      = parac_thread_registry_stop registry ∧
    (∀ starter start_func out_handle thrd thread,
      (parac_thread_registry_create (parac_thread_registry_stop registry) starter start_func
        out_handle ⟨true, thrd, thread⟩).2.1.threads.head?.map
          (fun t => t.registry_handle.stop) = some false) := by
  refine ⟨?_, ?_, ?_, rfl, ?_, ?_⟩
  · intro t ht
    simp only [parac_thread_registry_stop, List.mem_map] at ht
    obtain ⟨a, -, rfl⟩ := ht
    rfl
  · simp [parac_thread_registry_stop]
  · simp [parac_thread_registry_stop, Function.comp_def]
  · simp [parac_thread_registry_stop, Function.comp_def]
  · intro starter start_func out_handle thrd thread
    cases thrd <;>
      simp [parac_thread_registry_create, parac_thread_handle_list_alloc_new]

end parac.commonc

namespace parac.communicator

/-! ## Every timeout expires at most once -/

/-- One event invokes at most one callback, and the timeout it is invoked on is
gone afterwards. -/
theorem TimeoutController.step_calls (c c1 : TimeoutController) (ev : Event)
    (calls : List ExpiryCall) (hwf : c.wellFormed) (hstep : c.step ev = some (c1, calls)) :
    calls = [] ∨ ∃ call, calls = [call] ∧ c1.retired call.timeout ∧
      ∃ e ∈ c.timeoutList, e.node = call.timeout ∧ e.timeout.expired = some call.callback := by
  cases ev with
  | setTimeout ms userdata cb =>
    simp only [TimeoutController.step, Option.some.injEq, Prod.mk.injEq] at hstep
    exact Or.inl hstep.2.symm
  | cancelToken x =>
    have hs : c.cancelToken x = some (c1, calls) := hstep
    cases hf : c.find x with
    | none =>
      unfold TimeoutController.cancelToken at hs
      rw [hf] at hs
      cases hs
    | some e =>
      rw [TimeoutController.cancelToken_some c x e hf] at hs
      simp only [Option.some.injEq, Prod.mk.injEq] at hs
      exact Or.inl hs.2.symm
  | cancel x =>
    have hs : c.cancel x = some (c1, calls) := hstep
    cases hf : c.find x with
    | none =>
      unfold TimeoutController.cancel at hs
      rw [hf] at hs
      cases hs
    | some e =>
      rw [TimeoutController.cancel_some c x e hf] at hs
      simp only [Option.some.injEq, Prod.mk.injEq] at hs
      exact Or.inl hs.2.symm
  | timerHandler elem errc =>
    have hs : c.timerHandler elem errc = some (c1, calls) := hstep
    unfold TimeoutController.timerHandler at hs
    cases errc with
    | true =>
      simp only [if_true, Option.some.injEq, Prod.mk.injEq] at hs
      exact Or.inl hs.2.symm
    | false =>
      simp only [Bool.false_eq_true, if_false] at hs
      cases hf : c.find elem with
      | none =>
        rw [hf] at hs
        cases hs
      | some e =>
        rw [hf] at hs
        obtain ⟨hmem, hnode⟩ := TimeoutController.find_some c elem e hf
        cases hexp : e.timeout.expired with
        | none =>
          simp only [hexp, Option.some.injEq, Prod.mk.injEq] at hs
          exact Or.inl hs.2.symm
        | some cb =>
          simp only [hexp, TimeoutController.cancel_some c elem e hf, Option.some.injEq,
            Prod.mk.injEq] at hs
          obtain ⟨hc, hcalls⟩ := hs
          subst hc hcalls
          refine Or.inr ⟨_, rfl, ⟨?_, ?_⟩, e, hmem, hnode, hexp⟩
          · rw [← hnode]
            exact hwf.1 e hmem
          · intro x hx
            obtain ⟨hx1, hx2⟩ := List.mem_filter.mp hx
            exact ⟨by simpa using hx2, hwf.1 x hx1⟩

theorem TimeoutController.run_wellFormed (c c2 : TimeoutController) (evs : List Event)
    (calls : List ExpiryCall) (hwf : c.wellFormed) (hrun : c.run evs = some (c2, calls)) :
    c2.wellFormed := by
  induction evs generalizing c calls with
  | nil =>
    simp only [TimeoutController.run, Option.some.injEq, Prod.mk.injEq] at hrun
    exact hrun.1 ▸ hwf
  | cons ev evs ih =>
    unfold TimeoutController.run at hrun
    cases hs : c.step ev with
    | none =>
      rw [hs] at hrun
      cases hrun
    | some r =>
      obtain ⟨c1, calls1⟩ := r
      rw [hs] at hrun
      dsimp only at hrun
      cases hr : c1.run evs with
      | none =>
        rw [hr] at hrun
        cases hrun
      | some r2 =>
        obtain ⟨c3, calls2⟩ := r2
        rw [hr] at hrun
        simp only [Option.some.injEq, Prod.mk.injEq] at hrun
        obtain ⟨hc, -⟩ := hrun
        subst hc
        exact ih c1 calls2 (TimeoutController.step_wellFormed c c1 ev calls1 hwf hs) hr

/-- The callbacks invoked during a run are invoked on pairwise different
timeouts, all of which are gone at the end of the run. -/
theorem TimeoutController.run_calls_nodup (c c2 : TimeoutController) (evs : List Event)
    (calls : List ExpiryCall) (hwf : c.wellFormed) (hrun : c.run evs = some (c2, calls)) :
    (calls.map ExpiryCall.timeout).Nodup ∧ ∀ call ∈ calls, c2.retired call.timeout := by
  induction evs generalizing c calls with
  | nil =>
    simp only [TimeoutController.run, Option.some.injEq, Prod.mk.injEq] at hrun
    obtain ⟨-, hcalls⟩ := hrun
    subst hcalls
    exact ⟨by simp, by simp⟩
  | cons ev evs ih =>
    unfold TimeoutController.run at hrun
    cases hs : c.step ev with
    | none =>
      rw [hs] at hrun
      cases hrun
    | some r =>
      obtain ⟨c1, calls1⟩ := r
      rw [hs] at hrun
      dsimp only at hrun
      cases hr : c1.run evs with
      | none =>
        rw [hr] at hrun
        cases hrun
      | some r2 =>
        obtain ⟨c3, calls2⟩ := r2
        rw [hr] at hrun
        simp only [Option.some.injEq, Prod.mk.injEq] at hrun
        obtain ⟨hc, hcalls⟩ := hrun
        subst hc hcalls
        have hwf1 := TimeoutController.step_wellFormed c c1 ev calls1 hwf hs
        obtain ⟨hnd, hret⟩ := ih c1 calls2 hwf1 hr
        rcases TimeoutController.step_calls c c1 ev calls1 hwf hs with h0 | ⟨call, h1, hr1, -⟩
        · subst h0
          exact ⟨by simpa using hnd, by simpa using hret⟩
        · subst h1
          obtain ⟨hret2, hne⟩ := TimeoutController.run_retired c1 c3 call.timeout evs calls2 hr1 hr
          constructor
          · simp only [List.singleton_append, List.map_cons, List.nodup_cons]
            refine ⟨?_, hnd⟩
            intro hmem
            obtain ⟨x, hx, hxt⟩ := List.mem_map.mp hmem
            exact hne x hx hxt
          · intro x hx
            simp only [List.singleton_append, List.mem_cons] at hx
            rcases hx with h2 | h2
            · subst h2
              exact hret2
            · exact hret x h2

theorem destroy_timeouts_sublist (l : List Timeout) :
    ((l.flatMap Timeout.destroy).map ExpiryCall.timeout).Sublist (l.map Timeout.node) := by
  induction l with
  | nil => simp
  | cons a l ih =>
    rw [List.flatMap_cons, List.map_append, List.map_cons]
    unfold Timeout.destroy
    cases hexp : a.timeout.expired with
    | none => simpa using ih.cons a.node
    | some cb => simpa using ih.cons₂ a.node

/-- C28. Over any sequence of events on a controller in which no handler is
delivered to an erased entry, followed by the destruction of the controller, no
two invocations of expiry callbacks are on the same timeout: a timer that fires
on a pending timeout with a callback invokes it once and removes the entry, the
destruction of the controller invokes the callbacks of the entries that are
still pending, and a cancel invokes nothing.  But the completion handler of a
timer keeps the raw pointer to its entry: when it is delivered without error
after the entry was erased by a cancel, or after the entry was destroyed with
the controller (which invoked its callback and left it set), it looks into the
erased entry and is not defined. -/
theorem expiry_callback_at_most_once (c c2 : TimeoutController) (evs : List Event)
    (calls : List ExpiryCall) (hwf : c.wellFormed) (hrun : c.run evs = some (c2, calls)) :
    ((calls ++ c2.destroy.2).map ExpiryCall.timeout).Nodup ∧
    (∀ t e cb, c2.find t = some e → e.timeout.expired = some cb →
      c2.timerHandler t false
        = some ({ c2 with timeoutList := c2.timeoutList.filter (fun y => y.node ≠ t) },
                [⟨cb, t, e.timeout.expired_userdata⟩]) ∧
      ({ c2 with timeoutList := c2.timeoutList.filter (fun y => y.node ≠ t) } :
        TimeoutController).find t = none) ∧
    (∀ t e, c2.find t = some e →
      c2.cancelToken t
        = some ({ c2 with timeoutList := c2.timeoutList.filter (fun y => y.node ≠ t) }, []) ∧
      ({ c2 with timeoutList := c2.timeoutList.filter (fun y => y.node ≠ t) } :
        TimeoutController).timerHandler t false = none ∧
      c2.run [Event.cancelToken t, Event.timerHandler t false] = none) ∧
    (∀ call ∈ c2.destroy.2, c2.destroy.1.timerHandler call.timeout false = none) := by
  have hwf2 := TimeoutController.run_wellFormed c c2 evs calls hwf hrun
  obtain ⟨hnd, hret⟩ := TimeoutController.run_calls_nodup c c2 evs calls hwf hrun
  have hlate : ∀ t, ({ c2 with timeoutList := c2.timeoutList.filter (fun y => y.node ≠ t) } :
      TimeoutController).timerHandler t false = none := by
    intro t
    unfold TimeoutController.timerHandler
    simp only [Bool.false_eq_true, if_false, TimeoutController.find_after_cancel c2 t]
  refine ⟨?_, ?_, ?_, fun _ _ => rfl⟩
  · rw [List.map_append, List.nodup_append]
    refine ⟨hnd, (hwf2.2.sublist (destroy_timeouts_sublist c2.timeoutList)), ?_⟩
    intro t ht1 ht2
    obtain ⟨call, hcall, hct⟩ := List.mem_map.mp ht1
    obtain ⟨call2, hcall2, hct2⟩ := List.mem_map.mp ht2
    obtain ⟨x, hx, -, hxn, -⟩ := TimeoutController.destroy_calls c2 call2 hcall2
    have := ((hret call hcall).2 x hx).1
    exact this (by rw [hxn, hct2, hct])
  · intro t e cb hf hexp
    refine ⟨?_, TimeoutController.find_after_cancel c2 t⟩
    unfold TimeoutController.timerHandler
    simp only [Bool.false_eq_true, if_false, hf, hexp, TimeoutController.cancel_some c2 t e hf]
  · intro t e hf
    refine ⟨TimeoutController.cancelToken_some c2 t e hf, hlate t, ?_⟩
    unfold TimeoutController.run
    simp only [TimeoutController.step, TimeoutController.cancelToken_some c2 t e hf]
    unfold TimeoutController.run
    simp only [TimeoutController.step, hlate t]

/-- Witness for C28: on `oneTimeout` a second timeout is set, the first one
fires and the controller is destroyed; the two invocations are on different
timeouts.  A completion of the second timer that is delivered without error
after the destruction is not defined. -/
theorem expiry_callback_at_most_once_witness :
    oneTimeout.wellFormed ∧
    oneTimeout.run [Event.setTimeout 5 none (some 7), Event.timerHandler 0 false]
      = some ({ timeoutList := [⟨1, ⟨some 7, none⟩⟩], allocated := 2 }, [⟨42, 0, some 5⟩]) ∧
    ((([⟨42, 0, some 5⟩] : List ExpiryCall) ++
        (TimeoutController.destroy { timeoutList := [⟨1, ⟨some 7, none⟩⟩], allocated := 2 }).2).map
      ExpiryCall.timeout).Nodup ∧
    (([⟨42, 0, some 5⟩] : List ExpiryCall) ++
        (TimeoutController.destroy { timeoutList := [⟨1, ⟨some 7, none⟩⟩], allocated := 2 }).2)
      = [⟨42, 0, some 5⟩, ⟨7, 1, none⟩] ∧
    (TimeoutController.destroy
        { timeoutList := [⟨1, ⟨some 7, none⟩⟩], allocated := 2 }).1.timerHandler 1 false = none :=
  ⟨⟨by decide, by decide⟩, by decide,
   (expiry_callback_at_most_once oneTimeout
      { timeoutList := [⟨1, ⟨some 7, none⟩⟩], allocated := 2 }
      [Event.setTimeout 5 none (some 7), Event.timerHandler 0 false] [⟨42, 0, some 5⟩]
      ⟨by decide, by decide⟩ (by decide)).1,
   by decide, by decide⟩

end parac.communicator
